import Mathlib

/-!
Shallow embedding of the IMSS Batch Management service layer (`app.py`)
and verification of its specification.

The Python source keeps all state in pandas DataFrames inside
`st.session_state`; the embedding models each table as a `List` of records
inside a single `State` structure.  Python integers become `Int`.
Timestamps (`last_updated`, `owner_since`, `timestamp`) carry no business
logic and are omitted.  Derived DataFrame columns produced by
`svc_derive_wo_part_lines` (`outstanding_qty`, `line_status`) are modelled
as functions of the stored fields — every write path in the source
re-derives them from `required_qty`/`received_qty`, so they are always
consistent with those fields.

Where the source indexes `.values[0]` on a possibly-empty selection (an
uncaught `IndexError`), the embedding returns `Option` and `none` marks the
crash.  pandas `sort_values` uses an unstable quicksort whose tie order is
unspecified; the embedding sorts row indices with a deterministic insertion
sort on the same keys, which realises one of the permitted tie-breakings.
-/

/-- Sum of an integer-valued projection over a list. -/
def sumBy (l : List α) (f : α → Int) : Int :=
  (l.map f).sum

-- ── Data model (§3 of the spec; columns of the session-state tables) ──

structure WorkOrder where
  wo_id : String
  brigade : String
  priority : String
  created_date : Int
  wo_status : String
  deriving DecidableEq, Repr

structure WOPartLine where
  line_id : String
  wo_id : String
  part_no : String
  part_desc : String
  required_qty : Int
  received_qty : Int
  deriving DecidableEq, Repr

structure Batch where
  batch_id : String
  brigade : String
  batch_status : String
  deriving DecidableEq, Repr

structure BatchLine where
  batch_line_id : String
  batch_id : String
  part_no : String
  part_desc : String
  total_required_qty : Int
  vendor : String
  po_numbers : String
  ordered_qty : Int
  received_qty : Int
  deriving DecidableEq, Repr

structure Allocation where
  allocation_id : String
  batch_line_id : String
  wo_id : String
  line_id : String
  allocated_qty : Int
  allocation_status : String
  deriving DecidableEq, Repr

structure AuditEntry where
  audit_id : String
  entity_type : String
  entity_id : String
  action : String
  old_value : String
  new_value : String
  changed_by : String
  deriving DecidableEq, Repr

/-- The whole session state: entity tables plus the `allocation_mode`
config key read by the allocation engine. -/
structure State where
  work_orders : List WorkOrder
  wo_part_lines : List WOPartLine
  batches : List Batch
  batch_lines : List BatchLine
  allocations : List Allocation
  audit_log : List AuditEntry
  allocation_mode : String
  deriving DecidableEq, Repr

-- ── Derived fields (svc_derive_wo_part_lines) ──

/-- `outstanding_qty` column: `(required_qty - received_qty).clip(lower=0)`. -/
def wpl_outstanding (pl : WOPartLine) : Int :=
  max 0 (pl.required_qty - pl.received_qty)

/-- `line_status` column of `svc_derive_wo_part_lines`. -/
def wpl_line_status (pl : WOPartLine) : String :=
  if pl.received_qty ≥ pl.required_qty then "Ready"
  else if pl.received_qty > 0 then "Partial"
  else "Waiting"

-- ── Constants & static config ──

/-- `PRIORITY_ORDER` lookup with pandas `.map(...).fillna(9)`:
unknown priorities rank 9. -/
def PRIORITY_RANK (p : String) : Int :=
  if p == "Critical" then 0
  else if p == "High" then 1
  else if p == "Normal" then 2
  else 9

/-- `BATCH_TRANSITIONS` dict, accessed with `.get(current, [])`. -/
def BATCH_TRANSITIONS (s : String) : List String :=
  if s == "Draft" then ["Subm to Procurement"]
  else if s == "Subm to Procurement" then ["Under Procurement"]
  else if s == "Under Procurement" then ["Partially Received"]
  else if s == "Partially Received" then ["Fully Received"]
  else if s == "Fully Received" then ["Closed"]
  else []

-- ── Identifier generator (`_next_id_from_list`, `dl_next_id`) ──

/-- `s.startswith(pat)` on character lists: the remainder on success. -/
def strip_leading (pat : List Char) : List Char → Option (List Char)
  | s =>
    match pat, s with
    | [], rest => some rest
    | _ :: _, [] => none
    | p :: ps, c :: cs => if p = c then strip_leading ps cs else none

/-- `str.replace(pat, "")`: delete every non-overlapping occurrence of a
non-empty pattern, scanning left to right.  The fuel argument (the input
length suffices) keeps the recursion structural so that proofs can
evaluate it. -/
def remove_all (pat : List Char) : Nat → List Char → List Char
  | _, [] => []
  | 0, s => s
  | Nat.succ n, c :: cs =>
    match strip_leading pat (c :: cs) with
    | some rest => remove_all pat n rest
    | none => c :: remove_all pat n cs

/-- `int(s)` for an optionally-signed digit string (the only shapes the
id generator meets); anything else is `none` (a `ValueError`). -/
def parse_nat_digits : List Char → Nat → Option Nat
  | [], acc => some acc
  | c :: cs, acc =>
    if c.isDigit then parse_nat_digits cs (acc * 10 + (c.toNat - 48)) else none

def python_int_of_string (s : String) : Option Int :=
  match s.data with
  | [] => none
  | '-' :: rest =>
    if rest = [] then none
    else (parse_nat_digits rest 0).map (fun n => -(n : Int))
  | cs => (parse_nat_digits cs 0).map (fun n => (n : Int))

/-- `int(str(eid).replace(f"{pfx}-", ""))` wrapped in `try` — `none`
models the skipped `ValueError`. -/
def parse_seq_id (pfx eid : String) : Option Int :=
  python_int_of_string
    (String.mk (remove_all (pfx ++ "-").data eid.data.length eid.data))

/-- Zero padding of `f"{n:04d}"` for the non-negative ids produced here. -/
def zpad4 (n : Int) : String :=
  let s := toString n
  if s.length ≥ 4 then s
  else String.mk (List.replicate (4 - s.length) '0') ++ s

/-- `_next_id_from_list(pfx, existing)`: max parsed suffix + 1 (1 if none),
zero-padded to four digits. -/
def next_id_from_list (pfx : String) (existing : List String) : String :=
  let nums := existing.filterMap (parse_seq_id pfx)
  let nxt := (nums.foldl max 0) + 1
  pfx ++ "-" ++ zpad4 nxt

/-- `max` over a possibly-empty list as Python's `max(nums)+1 if nums else 1`:
all ids minted here are positive, so folding from 0 agrees with Python. -/
def dl_next_audit_id (st : State) : String :=
  next_id_from_list "AUD" (st.audit_log.map (fun e => e.audit_id))

/-- `str(x)[:500]`: character-wise truncation of the audit values. -/
def python_slice500 (s : String) : String :=
  String.mk (s.data.take 500)

/-- `dl_audit`: append one audit row; old/new values truncated to 500. -/
def dl_audit (st : State) (etype eid action oldv newv changed_by : String) : State :=
  { st with audit_log := st.audit_log ++
      [{ audit_id := dl_next_audit_id st
         entity_type := etype
         entity_id := eid
         action := action
         old_value := python_slice500 oldv
         new_value := python_slice500 newv
         changed_by := changed_by }] }

-- ── Status state machine ──

/-- `svc_can_transition`. -/
def svc_can_transition (current new : String) : Bool :=
  (BATCH_TRANSITIONS current).contains new

/-- `svc_transition_batch`.  The returned `Bool` is the success flag; the
human-readable message strings are elided. -/
def svc_transition_batch (st : State) (batch_id new_status changed_by : String) :
    Bool × State :=
  match st.batches.find? (fun b => b.batch_id == batch_id) with
  | none => (false, st)
  | some row =>
    let current := row.batch_status
    if ¬ svc_can_transition current new_status then (false, st)
    else
      let st1 := dl_audit st "Batch" batch_id "STATUS_CHANGE" current new_status changed_by
      let st2 := { st1 with batches := st1.batches.map (fun b =>
        if b.batch_id == batch_id then { b with batch_status := new_status } else b) }
      (true, st2)

-- ── Integrity validators (raising a ValidationError ⇝ returning `true`) ──

/-- `svc_validate_no_duplicate_active_lines`: `true` iff it raises. -/
def svc_validate_no_duplicate_active_lines (st : State) (line_ids : List String) : Bool :=
  let active_statuses := ["Draft", "Subm to Procurement", "Under Procurement", "Partially Received"]
  let active_bids := (st.batches.filter (fun b => active_statuses.contains b.batch_status)).map
    (fun b => b.batch_id)
  let active_bl_ids := (st.batch_lines.filter (fun bl => active_bids.contains bl.batch_id)).map
    (fun bl => bl.batch_line_id)
  let locked := (st.allocations.filter (fun a => active_bl_ids.contains a.batch_line_id)).map
    (fun a => a.line_id)
  line_ids.any (fun lid => locked.contains lid)

/-- `svc_validate_single_brigade`: `true` iff it raises (some selected work
order does not belong to the brigade; a missing work order also counts as
wrong, as `brigades.get(w)` returns `None`). -/
def svc_validate_single_brigade (st : State) (wo_ids : List String) (brigade : String) : Bool :=
  wo_ids.any (fun w =>
    ¬ ((st.work_orders.find? (fun o => o.wo_id == w)).map (fun o => o.brigade) == some brigade))

/-- `svc_validate_batch_not_closed`: `true` iff it raises. -/
def svc_validate_batch_not_closed (st : State) (batch_id : String) : Bool :=
  match st.batches.find? (fun b => b.batch_id == batch_id) with
  | none => false
  | some b => b.batch_status == "Closed"

/-- Sum of `allocated_qty` over the allocations of one batch line. -/
def sum_alloc_for_batch_line (allocs : List Allocation) (blid : String) : Int :=
  sumBy (allocs.filter (fun a => a.batch_line_id == blid)) (fun a => a.allocated_qty)

/-- `svc_validate_received_not_below_allocated`: `true` iff it raises. -/
def svc_validate_received_not_below_allocated (st : State) (blid : String)
    (new_received : Int) : Bool :=
  new_received < sum_alloc_for_batch_line st.allocations blid

/-- The `outstanding` total computed by `svc_validate_fully_received`:
`(lines.total_required_qty - lines.received_qty).clip(lower=0).sum()`
over the batch's lines. -/
def fully_received_outstanding (st : State) (batch_id : String) : Int :=
  sumBy (st.batch_lines.filter (fun l => l.batch_id == batch_id))
    (fun l => max 0 (l.total_required_qty - l.received_qty))

/-- `svc_validate_fully_received`: `true` iff it raises. -/
def svc_validate_fully_received (st : State) (batch_id : String) : Bool :=
  fully_received_outstanding st batch_id > 0

-- ── Allocation engine (`svc_run_allocation_engine`) ──

/-- One row of the merged frame `batch_allocs` inside the engine: the
allocation columns joined with the work order's priority rank and creation
date and the part line's outstanding quantity. -/
structure ARow where
  allocation_id : String
  line_id : String
  allocated_qty : Int
  allocation_status : String
  prank : Int
  created_date : Int
  outstanding : Int
  deriving DecidableEq, Repr

/-- Placeholder row used for out-of-range index reads (never reached on the
index lists the engine builds). -/
def ARow.dflt : ARow :=
  { allocation_id := "", line_id := "", allocated_qty := 0,
    allocation_status := "", prank := 9, created_date := 0, outstanding := 0 }

/-- Left-merge on `wo_id`.  The source's left join leaves NaN keys for a
missing work order, which `fillna(9)` turns into rank 9; the embedding's
default row has empty priority (rank 9) and date 0.  Theorems about
date ordering assume the work order exists. -/
def lookup_wo (st : State) (wid : String) : WorkOrder :=
  (st.work_orders.find? (fun w => w.wo_id == wid)).getD
    { wo_id := wid, brigade := "", priority := "", created_date := 0, wo_status := "" }

/-- Left-merge on `line_id` for `required_qty`.  A missing part line makes
the source crash on `int(NaN)`; theorems assume the line exists. -/
def lookup_required (st : State) (lid : String) : Int :=
  ((st.wo_part_lines.find? (fun l => l.line_id == lid)).map
    (fun l => l.required_qty)).getD 0

/-- Build one merged row; `outstanding = (required_qty - allocated_qty).clip(lower=0)`. -/
def toARow (st : State) (a : Allocation) : ARow :=
  let wo := lookup_wo st a.wo_id
  { allocation_id := a.allocation_id
    line_id := a.line_id
    allocated_qty := a.allocated_qty
    allocation_status := a.allocation_status
    prank := PRIORITY_RANK wo.priority
    created_date := wo.created_date
    outstanding := max 0 (lookup_required st a.line_id - a.allocated_qty) }

/-- `batch_allocs` before sorting: the line's allocations, merged. -/
def engine_rows (st : State) (blid : String) : List ARow :=
  (st.allocations.filter (fun a => a.batch_line_id == blid)).map (toARow st)

/-- Sort key: `["_prank", "created_date"]` for "Priority First then FIFO",
`"created_date"` alone otherwise. -/
def engine_key (mode : String) (r : ARow) : Int × Int :=
  if mode == "Priority First then FIFO" then (r.prank, r.created_date)
  else (r.created_date, 0)

/-- Lexicographic order on sort keys. -/
def keyLe (a b : Int × Int) : Prop :=
  a.1 < b.1 ∨ (a.1 = b.1 ∧ a.2 ≤ b.2)

instance : DecidableRel keyLe := fun a b => by
  unfold keyLe; exact inferInstance

/-- The permutation realising `sort_values(...).reset_index(drop=True)`:
row indices sorted by key. -/
def engine_sort_idx (mode : String) (rows : List ARow) : List Nat :=
  List.insertionSort
    (fun i j => keyLe (engine_key mode (rows.getD i ARow.dflt))
                      (engine_key mode (rows.getD j ARow.dflt)))
    (List.range rows.length)

/-- The sorted merged frame. -/
def engine_sorted (mode : String) (rows : List ARow) : List ARow :=
  (engine_sort_idx mode rows).map (fun i => rows.getD i ARow.dflt)

/-- Positive-delta fill loop: walk rows in order; stop when `remaining ≤ 0`;
give each row `min(outstanding, remaining)`. -/
def posLoop (remaining : Int) : List ARow → List ARow
  | [] => []
  | r :: rest =>
    if remaining ≤ 0 then r :: rest
    else
      let give := min r.outstanding remaining
      { r with allocated_qty := r.allocated_qty + give } :: posLoop (remaining - give) rest

/-- Negative-delta reduction walked over the *reversed* row list (the
source iterates `reversed(range(n))`): stop when `to_reduce ≤ 0` (the
`break`), skip `ManualOverride` rows, reduce others by
`min(allocated_qty, to_reduce)`.  Also returns the final `to_reduce`. -/
def negRevAux (to_reduce : Int) : List ARow → List ARow × Int
  | [] => ([], to_reduce)
  | r :: rest =>
    if to_reduce ≤ 0 then (r :: rest, to_reduce)
    else if r.allocation_status == "ManualOverride" then
      let (rest1, tr1) := negRevAux to_reduce rest
      (r :: rest1, tr1)
    else
      let red := min r.allocated_qty to_reduce
      let (rest1, tr1) := negRevAux (to_reduce - red) rest
      ({ r with allocated_qty := r.allocated_qty - red } :: rest1, tr1)

/-- Negative-delta loop on the rows in sort order. -/
def negLoop (to_reduce : Int) (rows : List ARow) : List ARow :=
  ((negRevAux to_reduce rows.reverse).1).reverse

/-- Vectorised write-back via `allocation_id` index alignment: every
allocations-table row whose id appears in the updated frame takes the
updated `allocated_qty`. -/
def engine_writeback (allocs : List Allocation) (updated : List ARow) : List Allocation :=
  allocs.map (fun a =>
    match updated.find? (fun r => r.allocation_id == a.allocation_id) with
    | some r => { a with allocated_qty := r.allocated_qty }
    | none => a)

/-- Sum of `allocated_qty` over all allocations referencing one
work-order part line (`groupby("line_id")["allocated_qty"].sum()`). -/
def sum_alloc_for_line (allocs : List Allocation) (lid : String) : Int :=
  sumBy (allocs.filter (fun a => a.line_id == lid)) (fun a => a.allocated_qty)

/-- `svc_run_allocation_engine(batch_line_id, new_received, old_received)`. -/
def svc_run_allocation_engine (st : State) (blid : String)
    (new_received old_received : Int) : State :=
  let mode := st.allocation_mode
  if mode == "Manual Only" then st
  else
    let delta := new_received - old_received
    if delta == 0 then st
    else
      let rows := engine_rows st blid
      if rows.isEmpty then st
      else
        let sorted := engine_sorted mode rows
        let updated := if delta > 0 then posLoop delta sorted else negLoop (-delta) sorted
        let allocs2 := engine_writeback st.allocations updated
        let affected := rows.map (fun r => r.line_id)
        let wpl2 := st.wo_part_lines.map (fun pl =>
          if affected.contains pl.line_id then
            { pl with received_qty := sum_alloc_for_line allocs2 pl.line_id }
          else pl)
        { st with allocations := allocs2, wo_part_lines := wpl2 }

-- ── Reset to auto (`svc_reset_allocation_to_auto`) ──

/-- `svc_reset_allocation_to_auto`: zero the line's allocations, reset
their status to `Allocated`, zero the affected part lines' received
quantities, re-run the engine from scratch, audit.  `none` models the
`IndexError` when the batch line does not exist (`.values[0]`). -/
def svc_reset_allocation_to_auto (st : State) (blid changed_by : String) :
    Option State :=
  let affected := (st.allocations.filter (fun a => a.batch_line_id == blid)).map
    (fun a => a.line_id)
  let allocs1 := st.allocations.map (fun a =>
    if a.batch_line_id == blid then
      { a with allocated_qty := 0, allocation_status := "Allocated" }
    else a)
  let wpl1 := st.wo_part_lines.map (fun pl =>
    if affected.contains pl.line_id then { pl with received_qty := 0 } else pl)
  let st1 := { st with allocations := allocs1, wo_part_lines := wpl1 }
  match st1.batch_lines.find? (fun bl => bl.batch_line_id == blid) with
  | none => none
  | some bl =>
    let received := bl.received_qty
    let st2 := svc_run_allocation_engine st1 blid received 0
    some (dl_audit st2 "BatchLine" blid "RESET_TO_AUTO" ""
      ("received=" ++ toString received) changed_by)

-- ── Derived batch status (`svc_recalc_batch_status`) ──

/-- `svc_recalc_batch_status`. -/
def svc_recalc_batch_status (st : State) (batch_id : String) : String :=
  let lines := st.batch_lines.filter (fun l => l.batch_id == batch_id)
  if lines.isEmpty then "Draft"
  else
    let total_req := sumBy lines (fun l => l.total_required_qty)
    let total_rec := sumBy lines (fun l => l.received_qty)
    if total_rec == 0 then "Under Procurement"
    else if total_rec ≥ total_req then "Fully Received"
    else "Partially Received"

-- ── Create batch (`svc_create_batch`) ──

/-- Lexicographic order on `(part_no, part_desc)` group keys. -/
def keyPairLe (a b : String × String) : Prop :=
  a.1 < b.1 ∨ (a.1 = b.1 ∧ a.2 ≤ b.2)

instance : DecidableRel keyPairLe := fun a b => by
  unfold keyPairLe; exact inferInstance

/-- Distinct keys, first occurrence kept. -/
def dedupKeys : List (String × String) → List (String × String)
  | [] => []
  | k :: rest => k :: (dedupKeys rest).filter (fun x => ¬ (x == k))

/-- The groups of `eligible.groupby(["part_no", "part_desc"])`: the distinct
key pairs in ascending order (pandas sorts group keys). -/
def group_keys (ls : List WOPartLine) : List (String × String) :=
  List.insertionSort keyPairLe (dedupKeys (ls.map (fun l => (l.part_no, l.part_desc))))

/-- Inner loop of `svc_create_batch`: one zero-valued allocation stub per
part line of the group, ids minted against the table plus the ids already
minted in this call (`existing_al`). -/
def create_alloc_loop (st : State) (bl_id : String) :
    List WOPartLine → List String → List Allocation
  | [], _ => []
  | pl :: ps, existing_al =>
    let a_id := next_id_from_list "ALLOC"
      (st.allocations.map (fun a => a.allocation_id) ++ existing_al)
    { allocation_id := a_id, batch_line_id := bl_id, wo_id := pl.wo_id,
      line_id := pl.line_id, allocated_qty := 0, allocation_status := "Allocated" }
      :: create_alloc_loop st bl_id ps (existing_al ++ [a_id])

/-- Outer loop of `svc_create_batch` over the aggregated groups.  Each group
yields one batch line whose `total_required_qty` sums `outstanding_qty`
over the group; the allocation stubs are minted for every eligible line
whose `part_no` matches (the source filters by `part_no` only). -/
def create_group_loop (st : State) (eligible : List WOPartLine) (new_batch_id : String) :
    List (String × String) → List String → List String → List BatchLine × List Allocation
  | [], _, _ => ([], [])
  | k :: rest, existing_bl, existing_al =>
    let bl_id := next_id_from_list "BL"
      (st.batch_lines.map (fun l => l.batch_line_id) ++ existing_bl)
    let total := sumBy (eligible.filter (fun l => l.part_no == k.1 && l.part_desc == k.2))
      wpl_outstanding
    let bline : BatchLine :=
      { batch_line_id := bl_id, batch_id := new_batch_id, part_no := k.1,
        part_desc := k.2, total_required_qty := total, vendor := "",
        po_numbers := "", ordered_qty := 0, received_qty := 0 }
    let allocs := create_alloc_loop st bl_id (eligible.filter (fun l => l.part_no == k.1))
      existing_al
    let (bs, as1) := create_group_loop st eligible new_batch_id rest
      (existing_bl ++ [bl_id]) (existing_al ++ allocs.map (fun a => a.allocation_id))
    (bline :: bs, allocs ++ as1)

/-- The columns of the eligible frame used by `svc_create_batch`. -/
def eligible_lines (st : State) (sel : List String) : List WOPartLine :=
  st.wo_part_lines.filter (fun l => sel.contains l.wo_id)

/-- `svc_create_batch(brigade, selected_wo_ids, approval_ref, created_by,
submit_immediately)`.  The success payload (the new batch id) is carried by
the final state; validation failure returns `(false, st)` untouched. -/
def svc_create_batch (st : State) (brigade : String) (selected_wo_ids : List String)
    (created_by : String) (submit_immediately : Bool) : Bool × State :=
  let eligible := eligible_lines st selected_wo_ids
  if svc_validate_single_brigade st selected_wo_ids brigade then (false, st)
  else if svc_validate_no_duplicate_active_lines st (eligible.map (fun l => l.line_id)) then
    (false, st)
  else
    let new_batch_id := next_id_from_list "BATCH" (st.batches.map (fun b => b.batch_id))
    let status := if submit_immediately then "Subm to Procurement" else "Draft"
    let newb : Batch := { batch_id := new_batch_id, brigade := brigade, batch_status := status }
    let st1 := { st with batches := st.batches ++ [newb] }
    let pair := create_group_loop st eligible new_batch_id (group_keys eligible) [] []
    let st2 := { st1 with batch_lines := st1.batch_lines ++ pair.1,
                          allocations := st1.allocations ++ pair.2 }
    let st3 := dl_audit st2 "Batch" new_batch_id "CREATED" ""
      ("brigade=" ++ brigade ++ " WOs=" ++ toString selected_wo_ids ++ " status=" ++ status)
      created_by
    (true, st3)

-- ── Update procurement line (`svc_update_procurement_line`) ──

/-- The tail of `svc_update_procurement_line`: recompute the derived batch
status and auto-advance it (with a `STATUS_AUTO` audit entry) when the
current status is not `Closed`/`Draft`/`Subm to Procurement` and the
recomputed status differs.  `none` models the uncaught `IndexError` of
`…batches…].values[0]` when the batch does not exist. -/
def svc_update_auto_status (st3 : State) (batch_id : String) : Option (Bool × State) :=
  let new_bs := svc_recalc_batch_status st3 batch_id
  match st3.batches.find? (fun b => b.batch_id == batch_id) with
  | none => none
  | some cb =>
    let current_bs := cb.batch_status
    if ¬ (current_bs == "Closed" || current_bs == "Draft"
          || current_bs == "Subm to Procurement") ∧ new_bs ≠ current_bs then
      let st4 := { st3 with batches := st3.batches.map (fun b =>
        if b.batch_id == batch_id then { b with batch_status := new_bs } else b) }
      some (true, dl_audit st4 "Batch" batch_id "STATUS_AUTO" current_bs new_bs "System")
    else some (true, st3)

/-- `svc_update_procurement_line`.  `none` models the uncaught `IndexError`
of `…batches…].values[0]` when the line's batch does not exist;
`some (false, st)` is a validation failure; the delivery date column is
omitted (no logic reads it). -/
def svc_update_procurement_line (st : State) (blid vendor po_numbers : String)
    (ordered_qty new_received : Int) (changed_by : String) : Option (Bool × State) :=
  match st.batch_lines.find? (fun l => l.batch_line_id == blid) with
  | none => some (false, st)
  | some row =>
    let batch_id := row.batch_id
    let old_received := row.received_qty
    if svc_validate_batch_not_closed st batch_id then some (false, st)
    else if svc_validate_received_not_below_allocated st blid new_received then
      some (false, st)
    else
      let st1 := dl_audit st "BatchLine" blid "PROCUREMENT_UPDATE"
        ("received=" ++ toString old_received) ("received=" ++ toString new_received)
        changed_by
      let st2 := { st1 with batch_lines := st1.batch_lines.map (fun l =>
        if l.batch_line_id == blid then
          { l with vendor := vendor, po_numbers := po_numbers,
                   ordered_qty := ordered_qty, received_qty := new_received }
        else l) }
      let st3 := if new_received != old_received then
          svc_run_allocation_engine st2 blid new_received old_received
        else st2
      svc_update_auto_status st3 batch_id

-- ── Apply allocation override (`svc_apply_allocation_override`) ──

/-- One row of the `overrides` frame handed over by the allocation editor. -/
structure OverrideRow where
  allocation_id : String
  allocated_qty : Int
  allocation_status : String
  deriving DecidableEq, Repr

/-- The row loop of `svc_apply_allocation_override`, carrying the store
state and the local working copy of `wo_part_lines` (`wpl` in the source,
persisted only after the loop finishes).  `none` models the uncaught
`IndexError` of `wpl.loc[...].values[0]` for a missing part line; a
`false` result is the mid-loop required-qty rejection, returning with the
updates of the earlier rows already persisted. -/
def override_loop (st : State) (wpl : List WOPartLine) (changed_by : String) :
    List OverrideRow → Option (Bool × State × List WOPartLine)
  | [] => some (true, st, wpl)
  | erow :: rest =>
    match st.allocations.find? (fun a => a.allocation_id == erow.allocation_id) with
    | none => override_loop st wpl changed_by rest
    | some orig =>
      match (wpl.find? (fun l => l.line_id == orig.line_id)).map
          (fun l => l.required_qty) with
      | none => none
      | some req =>
        let give := erow.allocated_qty
        if give > req then some (false, st, wpl)
        else
          let old_give := orig.allocated_qty
          let new_status := if give ≠ old_give then "ManualOverride"
            else erow.allocation_status
          let st1 := { st with allocations := st.allocations.map (fun a =>
            if a.allocation_id == erow.allocation_id then
              { a with allocated_qty := give, allocation_status := new_status }
            else a) }
          let st2 := dl_audit st1 "Allocation" erow.allocation_id "OVERRIDE"
            ("qty=" ++ toString old_give) ("qty=" ++ toString give) changed_by
          let total_for_line := sum_alloc_for_line st2.allocations orig.line_id
          let wpl2 := wpl.map (fun pl =>
            if pl.line_id == orig.line_id then
              { pl with received_qty := total_for_line }
            else pl)
          override_loop st2 wpl2 changed_by rest

/-- `svc_apply_allocation_override(overrides, batch_line_id)`. -/
def svc_apply_allocation_override (st : State) (overrides : List OverrideRow)
    (blid changed_by : String) : Option (Bool × State) :=
  match st.batch_lines.find? (fun l => l.batch_line_id == blid) with
  | none => some (false, st)
  | some bl =>
    let total_received := bl.received_qty
    let new_total := sumBy overrides (fun o => o.allocated_qty)
    if new_total > total_received then some (false, st)
    else
      match override_loop st st.wo_part_lines changed_by overrides with
      | none => none
      | some (false, st1, _) => some (false, st1)
      | some (true, st1, wpl1) => some (true, { st1 with wo_part_lines := wpl1 })

-- ── The "→ Fully Received" button of `page_procurement_updates` ──

/-- The UI transition handler for target `Fully Received`: it first runs
`svc_validate_fully_received` inside `try`; the raised `ValidationError`
aborts before `svc_transition_batch` is invoked. -/
def page_transition_fully_received (st : State) (batch_id user : String) : Bool × State :=
  if svc_validate_fully_received st batch_id then (false, st)
  else svc_transition_batch st batch_id "Fully Received" user

-- ── Spec-side definitions ──

/-- Modelled from the spec: the unique successor in the linear transition
chain Draft → Subm to Procurement → Under Procurement → Partially
Received → Fully Received → Closed. -/
def nextStatus (s : String) : Option String :=
  if s == "Draft" then some "Subm to Procurement"
  else if s == "Subm to Procurement" then some "Under Procurement"
  else if s == "Under Procurement" then some "Partially Received"
  else if s == "Partially Received" then some "Fully Received"
  else if s == "Fully Received" then some "Closed"
  else none

/-- Spec invariant: per batch line, the allocations' total never exceeds
the line's received quantity. -/
def inv_batch_line_alloc (st : State) : Prop :=
  ∀ bl ∈ st.batch_lines,
    sum_alloc_for_batch_line st.allocations bl.batch_line_id ≤ bl.received_qty

/-- Spec invariant: a part line referenced by at least one allocation has
`received_qty` equal to the sum of the allocations referencing it. -/
def inv_wpl_received (st : State) : Prop :=
  ∀ pl ∈ st.wo_part_lines,
    (∃ a ∈ st.allocations, a.line_id = pl.line_id) →
      pl.received_qty = sum_alloc_for_line st.allocations pl.line_id

-- ════════════════════════════════════════════════════════════════
-- Helper lemmas
-- ════════════════════════════════════════════════════════════════

theorem keyLe_total (a b : Int × Int) : keyLe a b ∨ keyLe b a := by
  unfold keyLe
  rcases lt_trichotomy a.1 b.1 with h | h | h
  · exact Or.inl (Or.inl h)
  · rcases le_total a.2 b.2 with h2 | h2
    · exact Or.inl (Or.inr ⟨h, h2⟩)
    · exact Or.inr (Or.inr ⟨h.symm, h2⟩)
  · exact Or.inr (Or.inl h)

theorem keyLe_trans (a b c : Int × Int) : keyLe a b → keyLe b c → keyLe a c := by
  unfold keyLe
  rintro (h1 | ⟨h1, h1'⟩) (h2 | ⟨h2, h2'⟩)
  · exact Or.inl (h1.trans h2)
  · exact Or.inl (h2 ▸ h1)
  · exact Or.inl (h1 ▸ h2)
  · exact Or.inr ⟨h1.trans h2, h1'.trans h2'⟩

theorem map_getD_range (l : List α) (d : α) :
    (List.range l.length).map (fun i => l.getD i d) = l := by
  induction l with
  | nil => rfl
  | cons a t ih =>
    have : (a :: t).length = t.length + 1 := rfl
    rw [this, List.range_succ_eq_map, List.map_cons, List.map_map]
    simp only [List.getD_cons_zero]
    refine congrArg (a :: ·) ?_
    have he : ((fun i => (a :: t).getD i d) ∘ Nat.succ) = fun i => t.getD i d := by
      funext i
      simp [List.getD_cons_succ]
    rw [he, ih]

theorem engine_sorted_perm (mode : String) (rows : List ARow) :
    (engine_sorted mode rows).Perm rows := by
  unfold engine_sorted engine_sort_idx
  have hp := List.perm_insertionSort
    (fun i j => keyLe (engine_key mode (rows.getD i ARow.dflt))
                      (engine_key mode (rows.getD j ARow.dflt)))
    (List.range rows.length)
  have := hp.map (fun i => rows.getD i ARow.dflt)
  rwa [map_getD_range] at this

theorem engine_sorted_sorted (mode : String) (rows : List ARow) :
    List.Sorted (fun a b : ARow => keyLe (engine_key mode a) (engine_key mode b))
      (engine_sorted mode rows) := by
  unfold engine_sorted engine_sort_idx
  set r := fun i j => keyLe (engine_key mode (rows.getD i ARow.dflt))
                            (engine_key mode (rows.getD j ARow.dflt)) with hr
  haveI : IsTotal Nat r := ⟨fun i j => keyLe_total _ _⟩
  haveI : IsTrans Nat r := ⟨fun i j k => keyLe_trans _ _ _⟩
  have hs := List.sorted_insertionSort r (List.range rows.length)
  unfold List.Sorted at hs ⊢
  exact List.pairwise_map.mpr hs

theorem engine_sorted_length (mode : String) (rows : List ARow) :
    (engine_sorted mode rows).length = rows.length :=
  (engine_sorted_perm mode rows).length_eq

/-- Every merged row has non-negative `outstanding` (built with `max 0 _`). -/
theorem engine_rows_outstanding_nonneg (st : State) (blid : String) :
    ∀ r ∈ engine_rows st blid, 0 ≤ r.outstanding := by
  intro r hr
  unfold engine_rows at hr
  obtain ⟨a, _, rfl⟩ := List.mem_map.mp hr
  simp [toARow]

-- ── posLoop lemmas ──

theorem posLoop_nonpos (l : List ARow) (d : Int) (hd : d ≤ 0) : posLoop d l = l := by
  cases l with
  | nil => rfl
  | cons r rest => unfold posLoop; simp [hd]

theorem posLoop_length (d : Int) (l : List ARow) : (posLoop d l).length = l.length := by
  induction l generalizing d with
  | nil => rfl
  | cons r rest ih =>
    unfold posLoop
    by_cases h : d ≤ 0
    · simp [h]
    · simp only [h, if_false]
      simp [ih]

theorem sumBy_nonneg (l : List α) (f : α → Int) (h : ∀ x ∈ l, 0 ≤ f x) :
    0 ≤ sumBy l f := by
  unfold sumBy
  apply List.sum_nonneg
  intro x hx
  obtain ⟨y, hy, rfl⟩ := List.mem_map.mp hx
  exact h y hy

theorem getD_outstanding_nonneg (l : List ARow) (i : Nat)
    (hout : ∀ r ∈ l, 0 ≤ r.outstanding) : 0 ≤ (l.getD i ARow.dflt).outstanding := by
  by_cases hi : i < l.length
  · rw [List.getD_eq_getElem l ARow.dflt hi]
    exact hout _ (List.getElem_mem hi)
  · rw [List.getD_eq_default _ _ (by omega)]
    simp [ARow.dflt]

/-- Closed form of the positive fill walk: row `i` receives
`min(outstanding_i, max 0 (d - Σ_{j<i} outstanding_j))`. -/
theorem posLoop_getD (l : List ARow) (d : Int) (i : Nat)
    (hout : ∀ r ∈ l, 0 ≤ r.outstanding) :
    ((posLoop d l).getD i ARow.dflt).allocated_qty
      = (l.getD i ARow.dflt).allocated_qty
        + min ((l.getD i ARow.dflt).outstanding)
            (max 0 (d - sumBy (l.take i) (fun r => r.outstanding))) := by
  induction l generalizing d i with
  | nil =>
    simp [posLoop, List.getD, ARow.dflt, sumBy]
  | cons r rest ih =>
    have houtr : 0 ≤ r.outstanding := hout r (List.mem_cons_self r rest)
    have houtrest : ∀ x ∈ rest, 0 ≤ x.outstanding :=
      fun x hx => hout x (List.mem_cons_of_mem r hx)
    have htake_nonneg : ∀ j, 0 ≤ sumBy ((r :: rest).take j) (fun x => x.outstanding) :=
      fun j => sumBy_nonneg _ _ (fun x hx => hout x (List.mem_of_mem_take hx))
    by_cases hd : d ≤ 0
    · rw [posLoop_nonpos _ _ hd]
      have h1 := htake_nonneg i
      have h2 := getD_outstanding_nonneg (r :: rest) i hout
      omega
    · push_neg at hd
      unfold posLoop
      simp only [not_le.mpr hd, if_false]
      cases i with
      | zero =>
        simp only [List.getD_cons_zero, List.take_zero]
        have h0 : sumBy ([] : List ARow) (fun x => x.outstanding) = 0 := by simp [sumBy]
        rw [h0]
        omega
      | succ j =>
        simp only [List.getD_cons_succ, List.take_succ_cons]
        rw [ih _ j houtrest]
        have hsum : sumBy (r :: rest.take j) (fun x => x.outstanding)
            = r.outstanding + sumBy (rest.take j) (fun x => x.outstanding) := by
          simp [sumBy]
        rw [hsum]
        have hrest_nonneg : 0 ≤ sumBy (rest.take j) (fun x => x.outstanding) :=
          sumBy_nonneg _ _ (fun x hx => houtrest x (List.mem_of_mem_take hx))
        omega

/-- `posLoop` only rewrites `allocated_qty`; all other columns survive. -/
theorem posLoop_shape (l : List ARow) (d : Int) :
    List.Forall₂ (fun a b : ARow =>
      b.allocation_id = a.allocation_id ∧ b.allocation_status = a.allocation_status ∧
      b.line_id = a.line_id ∧ b.prank = a.prank ∧ b.created_date = a.created_date ∧
      b.outstanding = a.outstanding) l (posLoop d l) := by
  induction l generalizing d with
  | nil => exact List.Forall₂.nil
  | cons r rest ih =>
    unfold posLoop
    by_cases hd : d ≤ 0
    · simp only [hd, if_true]
      exact (List.forall₂_same).mpr (fun x _ => ⟨rfl, rfl, rfl, rfl, rfl, rfl⟩)
    · simp only [hd, if_false]
      exact List.Forall₂.cons ⟨rfl, rfl, rfl, rfl, rfl, rfl⟩ (ih _)

/-- With a non-negative remainder, the positive walk never decreases any
row's quantity. -/
theorem posLoop_qty_mono (l : List ARow) (d : Int) (hd : 0 ≤ d)
    (hout : ∀ r ∈ l, 0 ≤ r.outstanding) :
    List.Forall₂ (fun a b : ARow => a.allocated_qty ≤ b.allocated_qty)
      l (posLoop d l) := by
  induction l generalizing d with
  | nil => exact List.Forall₂.nil
  | cons r rest ih =>
    have houtr : 0 ≤ r.outstanding := hout r (List.mem_cons_self r rest)
    have houtrest : ∀ x ∈ rest, 0 ≤ x.outstanding :=
      fun x hx => hout x (List.mem_cons_of_mem r hx)
    unfold posLoop
    by_cases h : d ≤ 0
    · simp only [h, if_true]
      exact (List.forall₂_same).mpr (fun x _ => le_refl _)
    · push_neg at h
      simp only [not_le.mpr h, if_false]
      refine List.Forall₂.cons (by simp; omega) (ih _ (by omega) houtrest)

-- ── negRevAux / negLoop lemmas ──

theorem negRevAux_break (l : List ARow) (tr : Int) (h : tr ≤ 0) :
    negRevAux tr l = (l, tr) := by
  cases l with
  | nil => rfl
  | cons r rest => unfold negRevAux; simp [h]

/-- The reduction walk only rewrites `allocated_qty`, and skips
`ManualOverride` rows entirely (their quantity survives unchanged). -/
theorem negRevAux_shape (l : List ARow) (tr : Int) :
    List.Forall₂ (fun a b : ARow =>
      b.allocation_id = a.allocation_id ∧ b.allocation_status = a.allocation_status ∧
      b.line_id = a.line_id ∧ b.prank = a.prank ∧ b.created_date = a.created_date ∧
      b.outstanding = a.outstanding ∧
      (a.allocation_status = "ManualOverride" → b.allocated_qty = a.allocated_qty))
      l (negRevAux tr l).1 := by
  induction l generalizing tr with
  | nil => exact List.Forall₂.nil
  | cons r rest ih =>
    unfold negRevAux
    by_cases h0 : tr ≤ 0
    · simp only [h0, if_true]
      exact (List.forall₂_same).mpr (fun x _ => ⟨rfl, rfl, rfl, rfl, rfl, rfl, fun _ => rfl⟩)
    · simp only [h0, if_false]
      by_cases hmo : r.allocation_status == "ManualOverride"
      · simp only [hmo, if_true]
        exact List.Forall₂.cons ⟨rfl, rfl, rfl, rfl, rfl, rfl, fun _ => rfl⟩ (ih _)
      · simp only [hmo, if_false]
        refine List.Forall₂.cons ⟨rfl, rfl, rfl, rfl, rfl, rfl, ?_⟩ (ih _)
        intro hM
        exact absurd (beq_iff_eq.mpr hM) (by simpa using hmo)

theorem negLoop_shape (l : List ARow) (tr : Int) :
    List.Forall₂ (fun a b : ARow =>
      b.allocation_id = a.allocation_id ∧ b.allocation_status = a.allocation_status ∧
      b.line_id = a.line_id ∧ b.prank = a.prank ∧ b.created_date = a.created_date ∧
      b.outstanding = a.outstanding ∧
      (a.allocation_status = "ManualOverride" → b.allocated_qty = a.allocated_qty))
      l (negLoop tr l) := by
  unfold negLoop
  have := negRevAux_shape l.reverse tr
  have h2 := List.forall₂_reverse_iff.mpr this
  rwa [List.reverse_reverse] at h2

-- ── id-chasing between the table, the merged rows, and the write-back ──

theorem forall₂_exists_left {R : α → β → Prop} {l1 : List α} {l2 : List β}
    (h : List.Forall₂ R l1 l2) (b : β) (hb : b ∈ l2) : ∃ a ∈ l1, R a b := by
  induction h with
  | nil => cases hb
  | cons hR hrest ih =>
    rcases List.mem_cons.mp hb with rfl | hb2
    · exact ⟨_, List.mem_cons_self _ _, hR⟩
    · obtain ⟨a, ha, hab⟩ := ih hb2
      exact ⟨a, List.mem_cons_of_mem _ ha, hab⟩

theorem engine_rows_mem (st : State) (blid : String) (r : ARow)
    (hr : r ∈ engine_rows st blid) :
    ∃ a ∈ st.allocations, a.batch_line_id = blid ∧ r = toARow st a := by
  unfold engine_rows at hr
  obtain ⟨a, ha, rfl⟩ := List.mem_map.mp hr
  exact ⟨a, List.mem_of_mem_filter ha,
    by simpa using (List.of_mem_filter ha), rfl⟩

/-- Strip the mutable quantity: what the engine's write-back leaves alone. -/
def stripQty (a : Allocation) : Allocation :=
  { a with allocated_qty := 0 }

/-- The engine rewrites only `allocated_qty` (and, in the source, a
timestamp): every other allocation column survives position by position. -/
theorem engine_allocations_strip (st : State) (blid : String) (nr orr : Int) :
    ((svc_run_allocation_engine st blid nr orr).allocations).map stripQty
      = st.allocations.map stripQty := by
  unfold svc_run_allocation_engine
  by_cases hm : st.allocation_mode == "Manual Only"
  · simp [hm]
  · rw [if_neg hm]
    by_cases hz : nr - orr == 0
    · simp [hz]
    · rw [if_neg hz]
      by_cases he : (engine_rows st blid).isEmpty
      · simp [he]
      · rw [if_neg he]
        dsimp only
        simp only [engine_writeback, List.map_map]
        apply List.map_congr_left
        intro a _
        simp only [Function.comp_apply]
        cases (if nr - orr > 0 then posLoop (nr - orr) (engine_sorted st.allocation_mode
            (engine_rows st blid)) else negLoop (-(nr - orr)) (engine_sorted st.allocation_mode
            (engine_rows st blid))).find? (fun r => r.allocation_id == a.allocation_id) with
        | none => rfl
        | some r => rfl

theorem engine_allocations_length (st : State) (blid : String) (nr orr : Int) :
    ((svc_run_allocation_engine st blid nr orr).allocations).length
      = st.allocations.length := by
  have := congrArg List.length (engine_allocations_strip st blid nr orr)
  simpa using this

/-- Core of the `ManualOverride` protection: whatever the delta's sign,
a `ManualOverride` allocation's quantity and status survive an engine run
unchanged in the reduction direction; the write-back aligns rows by
`allocation_id`, hence the id-uniqueness hypothesis. -/
theorem engine_neg_preserves_MO (st : State) (blid : String) (nr orr : Int)
    (hnodup : (st.allocations.map (fun a => a.allocation_id)).Nodup)
    (hneg : nr < orr) :
    List.Forall₂ (fun a b : Allocation =>
      b.allocation_id = a.allocation_id ∧ b.allocation_status = a.allocation_status ∧
      (a.allocation_status = "ManualOverride" → b.allocated_qty = a.allocated_qty))
      st.allocations (svc_run_allocation_engine st blid nr orr).allocations := by
  unfold svc_run_allocation_engine
  by_cases hm : st.allocation_mode == "Manual Only"
  · simp only [hm, if_true]
    exact (List.forall₂_same).mpr (fun a _ => ⟨rfl, rfl, fun _ => rfl⟩)
  · rw [if_neg hm]
    rw [if_neg (show ¬ ((nr - orr == 0) = true) by simp only [beq_iff_eq]; omega)]
    by_cases he : (engine_rows st blid).isEmpty
    · simp only [he, if_true]
      exact (List.forall₂_same).mpr (fun a _ => ⟨rfl, rfl, fun _ => rfl⟩)
    · rw [if_neg he]
      dsimp only
      rw [if_neg (show ¬ (nr - orr > 0) by omega)]
      unfold engine_writeback
      rw [List.forall₂_map_right_iff]
      apply (List.forall₂_same).mpr
      intro a ha
      cases hfind : (negLoop (-(nr - orr)) (engine_sorted st.allocation_mode
          (engine_rows st blid))).find? (fun r => r.allocation_id == a.allocation_id) with
      | none => exact ⟨rfl, rfl, fun _ => rfl⟩
      | some r =>
        refine ⟨rfl, rfl, ?_⟩
        intro hMO
        show r.allocated_qty = a.allocated_qty
        have hrmem := List.mem_of_find?_eq_some hfind
        have hp := List.find?_some hfind
        have hrid : r.allocation_id = a.allocation_id := by simpa using hp
        obtain ⟨r0, hr0mem, hsh⟩ := forall₂_exists_left
          (negLoop_shape (engine_sorted st.allocation_mode (engine_rows st blid))
            (-(nr - orr))) r hrmem
        have hr0rows : r0 ∈ engine_rows st blid :=
          (engine_sorted_perm st.allocation_mode (engine_rows st blid)).subset hr0mem
        obtain ⟨a1, ha1mem, hbl, rfl⟩ := engine_rows_mem st blid r0 hr0rows
        have hida1 : a1.allocation_id = a.allocation_id := by
          have : r.allocation_id = (toARow st a1).allocation_id := hsh.1
          simpa [toARow] using this.symm.trans hrid
        have haa : a1 = a := List.inj_on_of_nodup_map hnodup ha1mem ha hida1
        subst haa
        have hst : r.allocation_status = a1.allocation_status := by
          simpa [toARow] using hsh.2.1
        have hq := hsh.2.2.2.2.2.2
        have : (toARow st a1).allocation_status = "ManualOverride" := by
          simpa [toARow] using hMO
        simpa [toARow] using hq this

-- ── State-machine helper lemmas ──

/-- Membership in the transition table coincides with the linear
successor function: each status has at most one legal successor. -/
theorem mem_BATCH_TRANSITIONS_iff (cur ns : String) :
    ns ∈ BATCH_TRANSITIONS cur ↔ nextStatus cur = some ns := by
  unfold BATCH_TRANSITIONS nextStatus
  split_ifs <;> simp [eq_comm]

theorem svc_can_transition_iff (cur ns : String) :
    svc_can_transition cur ns = true ↔ nextStatus cur = some ns := by
  unfold svc_can_transition
  rw [List.elem_iff]
  exact mem_BATCH_TRANSITIONS_iff cur ns

/-- A status with a successor, and that successor, are among the five
short literal status strings, so the audit-value truncation to 500
characters is the identity on them. -/
theorem nextStatus_take500 (s ns : String) (h : nextStatus s = some ns) :
    python_slice500 s = s ∧ python_slice500 ns = ns := by
  unfold nextStatus at h
  split_ifs at h with h1 h2 h3 h4 h5
  · obtain rfl := beq_iff_eq.mp h1
    obtain rfl := Option.some.inj h
    exact ⟨by decide, by decide⟩
  · obtain rfl := beq_iff_eq.mp h2
    obtain rfl := Option.some.inj h
    exact ⟨by decide, by decide⟩
  · obtain rfl := beq_iff_eq.mp h3
    obtain rfl := Option.some.inj h
    exact ⟨by decide, by decide⟩
  · obtain rfl := beq_iff_eq.mp h4
    obtain rfl := Option.some.inj h
    exact ⟨by decide, by decide⟩
  · obtain rfl := beq_iff_eq.mp h5
    obtain rfl := Option.some.inj h
    exact ⟨by decide, by decide⟩

theorem sumBy_pos (l : List α) (f : α → Int) (hnn : ∀ x ∈ l, 0 ≤ f x)
    (hpos : ∃ x ∈ l, 0 < f x) : 0 < sumBy l f := by
  induction l with
  | nil => obtain ⟨x, hx, _⟩ := hpos; cases hx
  | cons a t ih =>
    have hsum : sumBy (a :: t) f = f a + sumBy t f := by simp [sumBy]
    have htnn : 0 ≤ sumBy t f := sumBy_nonneg t f (fun x hx => hnn x (List.mem_cons_of_mem a hx))
    obtain ⟨x, hx, hxpos⟩ := hpos
    rcases List.mem_cons.mp hx with rfl | hxt
    · omega
    · have := ih (fun y hy => hnn y (List.mem_cons_of_mem a hy)) ⟨x, hxt, hxpos⟩
      have hann : 0 ≤ f a := hnn a (List.mem_cons_self a t)
      omega

/-- An audit entry with the given (untruncated) fields, used to state
what a successful operation appends. -/
def mkAuditEntry (aid etype eid action oldv newv cb : String) : AuditEntry :=
  { audit_id := aid, entity_type := etype, entity_id := eid, action := action,
    old_value := oldv, new_value := newv, changed_by := cb }

-- ════════════════════════════════════════════════════════════════
-- Claim theorems
-- ════════════════════════════════════════════════════════════════

/-- C4: for every batch and every target status, `transitionBatch`
succeeds if and only if the batch exists and the target is the unique
successor of the batch's current status in the fixed linear transition
table; on any other target it returns an error and the state — in
particular the batch's status — is unchanged; on success it writes
exactly one `STATUS_CHANGE` audit entry recording the old and new status
and persists the new status. -/
theorem C4_transition_batch_iff_unique_successor
    (st : State) (bid ns cb : String)
    (hnodup : (st.batches.map (fun b => b.batch_id)).Nodup) :
    ((svc_transition_batch st bid ns cb).1 = true
      ↔ ∃ b ∈ st.batches, b.batch_id = bid ∧ nextStatus b.batch_status = some ns)
    ∧ ((svc_transition_batch st bid ns cb).1 = false
        → (svc_transition_batch st bid ns cb).2 = st)
    ∧ (∀ b ∈ st.batches, b.batch_id = bid → nextStatus b.batch_status = some ns →
        (svc_transition_batch st bid ns cb).2.batches
            = st.batches.map (fun x =>
                if x.batch_id == bid then { x with batch_status := ns } else x)
        ∧ (svc_transition_batch st bid ns cb).2.audit_log
            = st.audit_log ++ [mkAuditEntry (dl_next_audit_id st) "Batch" bid
                "STATUS_CHANGE" b.batch_status ns cb]
        ∧ (svc_transition_batch st bid ns cb).2.allocations = st.allocations
        ∧ (svc_transition_batch st bid ns cb).2.batch_lines = st.batch_lines
        ∧ (svc_transition_batch st bid ns cb).2.wo_part_lines = st.wo_part_lines) := by
  cases hfind : st.batches.find? (fun b => b.batch_id == bid) with
  | none =>
    have hnone : ∀ b ∈ st.batches, ¬(b.batch_id = bid) := by
      intro b hb hbid
      have := List.find?_eq_none.mp hfind b hb
      simp [hbid] at this
    unfold svc_transition_batch
    rw [hfind]
    dsimp only
    refine ⟨?_, fun _ => rfl, ?_⟩
    · constructor
      · intro h; cases h
      · rintro ⟨b, hb, hbid, _⟩; exact absurd hbid (hnone b hb)
    · intro b hb hbid _; exact absurd hbid (hnone b hb)
  | some b0 =>
    have hb0mem := List.mem_of_find?_eq_some hfind
    have hb0id : b0.batch_id = bid := by simpa using List.find?_some hfind
    unfold svc_transition_batch
    rw [hfind]
    dsimp only
    by_cases hcan : svc_can_transition b0.batch_status ns
    · have hns : nextStatus b0.batch_status = some ns := (svc_can_transition_iff _ _).mp hcan
      rw [if_neg (not_not_intro hcan)]
      refine ⟨?_, ?_, ?_⟩
      · exact ⟨fun _ => ⟨b0, hb0mem, hb0id, hns⟩, fun _ => rfl⟩
      · intro h; cases h
      · intro b hb hbid hnsb
        have hbb0 : b = b0 :=
          List.inj_on_of_nodup_map hnodup hb hb0mem (hbid.trans hb0id.symm)
        subst hbb0
        refine ⟨rfl, ?_, rfl, rfl, rfl⟩
        simp only [dl_audit]
        rw [(nextStatus_take500 _ _ hnsb).1, (nextStatus_take500 _ _ hnsb).2]
        simp [mkAuditEntry]
    · rw [if_pos hcan]
      refine ⟨?_, fun _ => rfl, ?_⟩
      · constructor
        · intro h; cases h
        · rintro ⟨b, hb, hbid, hnsb⟩
          have hbb0 : b = b0 :=
            List.inj_on_of_nodup_map hnodup hb hb0mem (hbid.trans hb0id.symm)
          exact absurd ((svc_can_transition_iff _ _).mpr (hbb0 ▸ hnsb)) hcan
      · intro b hb hbid hnsb
        have hbb0 : b = b0 :=
          List.inj_on_of_nodup_map hnodup hb hb0mem (hbid.trans hb0id.symm)
        exact absurd ((svc_can_transition_iff _ _).mpr (hbb0 ▸ hnsb)) hcan

/-- Concrete two-batch state exercising `svc_transition_batch`. -/
def c4w_st : State :=
  { work_orders := [], wo_part_lines := [],
    batches := [{ batch_id := "BATCH-0001", brigade := "B1", batch_status := "Draft" },
                { batch_id := "BATCH-0002", brigade := "B1", batch_status := "Closed" }],
    batch_lines := [], allocations := [], audit_log := [],
    allocation_mode := "Priority First then FIFO" }

/-- Witness for C4: the hypotheses hold at a concrete state, where the
Draft batch transitions exactly to `Subm to Procurement`. -/
theorem C4_transition_batch_iff_unique_successor_witness :
    (svc_transition_batch c4w_st "BATCH-0001" "Subm to Procurement" "U").1 = true
    ∧ (svc_transition_batch c4w_st "BATCH-0001" "Closed" "U").1 = false :=
  ⟨((C4_transition_batch_iff_unique_successor c4w_st "BATCH-0001" "Subm to Procurement" "U"
      (by decide)).1).mpr (by decide),
   by
    have h := (C4_transition_batch_iff_unique_successor c4w_st "BATCH-0001" "Closed" "U"
      (by decide)).1
    by_contra hb
    have : (svc_transition_batch c4w_st "BATCH-0001" "Closed" "U").1 = true := by
      revert hb; cases (svc_transition_batch c4w_st "BATCH-0001" "Closed" "U").1 <;> simp
    obtain ⟨b, hbm, hbid, hns⟩ := h.mp this
    revert hns
    revert hbid
    fin_cases hbm <;> decide⟩

-- ── C10 ──

/-- Concrete state with a single `ManualOverride` allocation (5 of 10
received) on batch line BL-0001.  Records are given positionally in the
field order of their structures. -/
def c10_st : State :=
  { work_orders := [⟨"WO-0001", "B1", "Critical", 1, "Waiting Parts"⟩],
    wo_part_lines := [⟨"LN-0001", "WO-0001", "P1", "PART", 10, 5⟩],
    batches := [⟨"BATCH-0001", "B1", "Partially Received"⟩],
    batch_lines := [⟨"BL-0001", "BATCH-0001", "P1", "PART", 10, "", "", 0, 5⟩],
    allocations := [⟨"ALLOC-0001", "BL-0001", "WO-0001", "LN-0001", 5, "ManualOverride"⟩],
    audit_log := [], allocation_mode := "Priority First then FIFO" }

/-- C10: `ManualOverride` protection does not apply to increases — in a
concrete state with a `ManualOverride` allocation holding 5 of its
required 10, a positive delta of 3 raises its quantity to 8, exactly as
for an unprotected row (the positive-delta fill loop performs no status
check). -/
theorem C10_positive_delta_fills_manual_override :
    (c10_st.allocations.map (fun a => (a.allocation_status, a.allocated_qty)))
        = [("ManualOverride", 5)]
    ∧ ((svc_run_allocation_engine c10_st "BL-0001" 8 5).allocations.map
        (fun a => (a.allocation_status, a.allocated_qty)))
        = [("ManualOverride", 8)] := by
  constructor
  · rfl
  · decide

-- ── C5 ──

/-- C5: a transition to `Fully Received` (as wired in the procurement
page: `svc_validate_fully_received` runs first and a raised
`ValidationError` aborts before `svc_transition_batch`) is rejected with
the state unchanged whenever some line of the batch has
`received_qty < total_required_qty`. -/
theorem C5_fully_received_rejected_when_outstanding
    (st : State) (bid u : String)
    (h : ∃ l ∈ st.batch_lines, l.batch_id = bid ∧ l.received_qty < l.total_required_qty) :
    page_transition_fully_received st bid u = (false, st) := by
  have hval : svc_validate_fully_received st bid = true := by
    have hpos : 0 < fully_received_outstanding st bid := by
      obtain ⟨l, hl, hbid, hlt⟩ := h
      apply sumBy_pos
      · intro x _; positivity
      · refine ⟨l, ?_, ?_⟩
        · apply List.mem_filter.mpr
          exact ⟨hl, by simp [hbid]⟩
        · omega
    simp [svc_validate_fully_received, hpos]
  unfold page_transition_fully_received
  simp [hval]

/-- Concrete state for the C5 witness: BATCH-0001 is `Partially Received`
with 3 of 10 received on its only line. -/
def c5w_st : State :=
  { work_orders := [], wo_part_lines := [],
    batches := [⟨"BATCH-0001", "B1", "Partially Received"⟩],
    batch_lines := [⟨"BL-0001", "BATCH-0001", "P1", "PART", 10, "", "", 0, 3⟩],
    allocations := [], audit_log := [], allocation_mode := "Priority First then FIFO" }

/-- Witness for C5 at a concrete under-received batch. -/
theorem C5_fully_received_rejected_when_outstanding_witness :
    page_transition_fully_received c5w_st "BATCH-0001" "U" = (false, c5w_st) :=
  C5_fully_received_rejected_when_outstanding c5w_st "BATCH-0001" "U" (by decide)

-- ── C3 ──

/-- The row loop of the override never touches the store's part-line,
batch, batch-line or work-order tables: part-line updates live in the
local `wpl` copy until the loop completes. -/
theorem override_loop_store_tables (cb : String) :
    ∀ (ov : List OverrideRow) (st : State) (wpl : List WOPartLine) (b : Bool)
      (st1 : State) (wpl1 : List WOPartLine),
      override_loop st wpl cb ov = some (b, st1, wpl1) →
      st1.wo_part_lines = st.wo_part_lines ∧ st1.batches = st.batches ∧
      st1.batch_lines = st.batch_lines ∧ st1.work_orders = st.work_orders := by
  intro ov
  induction ov with
  | nil =>
    intro st wpl b st1 wpl1 h
    unfold override_loop at h
    obtain ⟨rfl, rfl, rfl⟩ : b = true ∧ st1 = st ∧ wpl1 = wpl := by
      injection h with h2
      injection h2 with hb h3
      injection h3 with hst hwpl
      exact ⟨hb.symm, hst.symm, hwpl.symm⟩
    exact ⟨rfl, rfl, rfl, rfl⟩
  | cons erow rest ih =>
    intro st wpl b st1 wpl1 h
    unfold override_loop at h
    cases hfind : st.allocations.find? (fun a => a.allocation_id == erow.allocation_id) with
    | none =>
      rw [hfind] at h
      exact ih st wpl b st1 wpl1 h
    | some orig =>
      rw [hfind] at h
      dsimp only at h
      cases hreq : (wpl.find? (fun l => l.line_id == orig.line_id)).map
          (fun l => l.required_qty) with
      | none => rw [hreq] at h; cases h
      | some req =>
        rw [hreq] at h
        dsimp only at h
        by_cases hgt : erow.allocated_qty > req
        · rw [if_pos hgt] at h
          obtain ⟨rfl, rfl, rfl⟩ : b = false ∧ st1 = st ∧ wpl1 = wpl := by
            injection h with h2
            injection h2 with hb h3
            injection h3 with hst hwpl
            exact ⟨hb.symm, hst.symm, hwpl.symm⟩
          exact ⟨rfl, rfl, rfl, rfl⟩
        · rw [if_neg hgt] at h
          have := ih _ _ _ _ _ h
          simpa [dl_audit] using this

/-- C3 (amended): an `applyAllocationOverride` call rejected by one of the
up-front checks — batch line not found, or the edits' total exceeding the
line's received quantity — leaves every entity collection and the audit
log exactly as before; and any rejected call leaves the persisted
`wo_part_lines`, `batches` and `batch_lines` tables unchanged.  (The
per-allocation required-qty check, by contrast, fires inside the row loop:
see the counterexample for the partial writes it leaves behind.) -/
theorem C3_amended_upfront_override_failures_atomic
    (st : State) (ov : List OverrideRow) (blid cb : String) :
    (st.batch_lines.find? (fun l => l.batch_line_id == blid) = none →
      svc_apply_allocation_override st ov blid cb = some (false, st))
    ∧ (∀ bl, st.batch_lines.find? (fun l => l.batch_line_id == blid) = some bl →
        sumBy ov (fun o => o.allocated_qty) > bl.received_qty →
        svc_apply_allocation_override st ov blid cb = some (false, st))
    ∧ (∀ st1, svc_apply_allocation_override st ov blid cb = some (false, st1) →
        st1.wo_part_lines = st.wo_part_lines ∧ st1.batches = st.batches ∧
        st1.batch_lines = st.batch_lines) := by
  refine ⟨?_, ?_, ?_⟩
  · intro h
    unfold svc_apply_allocation_override
    rw [h]
  · intro bl h hgt
    unfold svc_apply_allocation_override
    rw [h]
    dsimp only
    rw [if_pos hgt]
  · intro st1 h1
    unfold svc_apply_allocation_override at h1
    cases hfind : st.batch_lines.find? (fun l => l.batch_line_id == blid) with
    | none =>
      rw [hfind] at h1
      dsimp only at h1
      obtain rfl : st = st1 := by
        injection h1 with h2
        injection h2 with hb hst
      exact ⟨rfl, rfl, rfl⟩
    | some bl =>
      rw [hfind] at h1
      dsimp only at h1
      by_cases hgt : sumBy ov (fun o => o.allocated_qty) > bl.received_qty
      · rw [if_pos hgt] at h1
        obtain rfl : st = st1 := by
          injection h1 with h2
          injection h2 with hb hst
        exact ⟨rfl, rfl, rfl⟩
      · rw [if_neg hgt] at h1
        cases hloop : override_loop st st.wo_part_lines cb ov with
        | none => rw [hloop] at h1; cases h1
        | some trip =>
          rw [hloop] at h1
          obtain ⟨b2, st2, wpl2⟩ := trip
          cases b2 with
          | false =>
            dsimp only at h1
            obtain rfl : st2 = st1 := by
              injection h1 with h2
              injection h2 with hb hst
            obtain ⟨hA, hB, hC, _⟩ := override_loop_store_tables cb ov st st.wo_part_lines
              false st2 wpl2 hloop
            exact ⟨hA, hB, hC⟩
          | true =>
            dsimp only at h1
            injection h1 with h2
            injection h2 with hb hst
            cases hb

/-- Concrete state refuting C3's atomicity: batch line BL-0001 (received
10) with two allocations of 2 each; the edit sets ALLOC-0001 to 4 (legal)
and ALLOC-0002 to 6, which exceeds LN-0002's required 5. -/
def c3_st : State :=
  { work_orders := [⟨"WO-0001", "B1", "Critical", 1, "W"⟩,
                    ⟨"WO-0002", "B1", "Normal", 5, "W"⟩],
    wo_part_lines := [⟨"LN-0001", "WO-0001", "P1", "PART", 10, 2⟩,
                      ⟨"LN-0002", "WO-0002", "P1", "PART", 5, 2⟩],
    batches := [⟨"BATCH-0001", "B1", "Partially Received"⟩],
    batch_lines := [⟨"BL-0001", "BATCH-0001", "P1", "PART", 15, "", "", 0, 10⟩],
    allocations := [⟨"ALLOC-0001", "BL-0001", "WO-0001", "LN-0001", 2, "Allocated"⟩,
                    ⟨"ALLOC-0002", "BL-0001", "WO-0002", "LN-0002", 2, "Allocated"⟩],
    audit_log := [], allocation_mode := "Priority First then FIFO" }

/-- The edit set of the C3 counterexample. -/
def c3_ov : List OverrideRow :=
  [⟨"ALLOC-0001", 4, "Allocated"⟩, ⟨"ALLOC-0002", 6, "Allocated"⟩]

/-- C3 counterexample: the per-row required-qty rejection is *not*
atomic — the call fails (total 10 ≤ received 10 passes, but ALLOC-0002's
6 exceeds required 5), yet the first row's allocation update and its
OVERRIDE audit entry have been persisted. -/
theorem C3_counterexample_partial_writes_on_required_qty_failure :
    ((svc_apply_allocation_override c3_st c3_ov "BL-0001" "U").map (fun p => p.1))
      = some false
    ∧ ((svc_apply_allocation_override c3_st c3_ov "BL-0001" "U").map
        (fun p => p.2.allocations.map (fun a => (a.allocated_qty, a.allocation_status))))
      = some [(4, "ManualOverride"), (2, "Allocated")]
    ∧ (c3_st.allocations.map (fun a => (a.allocated_qty, a.allocation_status)))
      = [(2, "Allocated"), (2, "Allocated")]
    ∧ ((svc_apply_allocation_override c3_st c3_ov "BL-0001" "U").map
        (fun p => p.2.audit_log.length)) = some 1
    ∧ c3_st.audit_log.length = 0 := by
  refine ⟨by decide, by decide, by decide, by decide, by decide⟩

/-- Witness for the amended C3 theorem: both up-front rejections at
concrete inputs really return the untouched state. -/
theorem C3_amended_upfront_override_failures_atomic_witness :
    svc_apply_allocation_override c3_st c3_ov "MISSING" "U" = some (false, c3_st)
    ∧ svc_apply_allocation_override c3_st [⟨"ALLOC-0001", 11, "Allocated"⟩] "BL-0001" "U"
        = some (false, c3_st) :=
  ⟨(C3_amended_upfront_override_failures_atomic c3_st c3_ov "MISSING" "U").1 (by decide),
   (C3_amended_upfront_override_failures_atomic c3_st [⟨"ALLOC-0001", 11, "Allocated"⟩]
      "BL-0001" "U").2.1 ⟨"BL-0001", "BATCH-0001", "P1", "PART", 15, "", "", 0, 10⟩
      (by decide) (by decide)⟩

-- ── C6 ──

instance (st : State) : Decidable (inv_batch_line_alloc st) := by
  unfold inv_batch_line_alloc; exact inferInstance

instance (st : State) : Decidable (inv_wpl_received st) := by
  unfold inv_wpl_received; exact inferInstance

/-- Failing input for C6: both invariants hold — batch line BL-0001 has
received 10 and allocations 5 + 5 — and the override edits only
ALLOC-0001, raising it to its full required 10. -/
def c6_st : State :=
  { work_orders := [⟨"WO-0001", "B1", "Critical", 1, "W"⟩,
                    ⟨"WO-0002", "B1", "Normal", 5, "W"⟩],
    wo_part_lines := [⟨"LN-0001", "WO-0001", "P1", "PART", 10, 5⟩,
                      ⟨"LN-0002", "WO-0002", "P1", "PART", 10, 5⟩],
    batches := [⟨"BATCH-0001", "B1", "Partially Received"⟩],
    batch_lines := [⟨"BL-0001", "BATCH-0001", "P1", "PART", 20, "", "", 0, 10⟩],
    allocations := [⟨"ALLOC-0001", "BL-0001", "WO-0001", "LN-0001", 5, "Allocated"⟩,
                    ⟨"ALLOC-0002", "BL-0001", "WO-0002", "LN-0002", 5, "Allocated"⟩],
    audit_log := [], allocation_mode := "Priority First then FIFO" }

/-- C6 at the failing input: the capacity validator sums only the *edited*
rows (10 ≤ received 10 passes), the unedited ALLOC-0002 keeps its 5, the
call succeeds — and afterwards the batch line's allocation total is 15
against a received quantity of 10, breaking the claimed invariant. -/
theorem C6_invariant_broken_by_subset_override :
    inv_batch_line_alloc c6_st
    ∧ inv_wpl_received c6_st
    ∧ ((svc_apply_allocation_override c6_st [⟨"ALLOC-0001", 10, "Allocated"⟩]
        "BL-0001" "U").map (fun p => p.1)) = some true
    ∧ ((svc_apply_allocation_override c6_st [⟨"ALLOC-0001", 10, "Allocated"⟩]
        "BL-0001" "U").map
        (fun p => sum_alloc_for_batch_line p.2.allocations "BL-0001")) = some 15
    ∧ ((svc_apply_allocation_override c6_st [⟨"ALLOC-0001", 10, "Allocated"⟩]
        "BL-0001" "U").map
        (fun p => p.2.batch_lines.map (fun l => l.received_qty))) = some [10]
    ∧ ((svc_apply_allocation_override c6_st [⟨"ALLOC-0001", 10, "Allocated"⟩]
        "BL-0001" "U").map (fun p => decide (inv_batch_line_alloc p.2))) = some false := by
  refine ⟨by decide, by decide, by decide, by decide, by decide, by decide⟩

-- ── C2 ──

/-- The (id, status) view of an allocation row. -/
def prStatus (a : Allocation) : String × String :=
  (a.allocation_id, a.allocation_status)

theorem map_prStatus_of_strip (l1 l2 : List Allocation)
    (h : l1.map stripQty = l2.map stripQty) : l1.map prStatus = l2.map prStatus := by
  have h1 : ∀ l : List Allocation, l.map prStatus = (l.map stripQty).map prStatus := by
    intro l
    rw [List.map_map]
    rfl
  rw [h1 l1, h1 l2, h]

/-- `svc_transition_batch` never touches the allocations table. -/
theorem transition_batch_allocations (st : State) (bid ns cb : String) :
    (svc_transition_batch st bid ns cb).2.allocations = st.allocations := by
  unfold svc_transition_batch
  dsimp only
  split
  · rfl
  · split <;> rfl

/-- `svc_create_batch` only appends to the allocations table. -/
theorem create_batch_allocations_append (st : State) (br : String)
    (sel : List String) (cb : String) (sub : Bool) :
    ∃ suffix, (svc_create_batch st br sel cb sub).2.allocations
      = st.allocations ++ suffix := by
  unfold svc_create_batch
  dsimp only
  split
  · exact ⟨[], by simp⟩
  · split
    · exact ⟨[], by simp⟩
    · exact ⟨_, rfl⟩

/-- The auto-status tail never touches the allocations, part lines,
batch lines or work orders. -/
theorem update_auto_status_tables (st3 : State) (bid : String) (b : Bool) (st4 : State)
    (h : svc_update_auto_status st3 bid = some (b, st4)) :
    st4.allocations = st3.allocations ∧ st4.wo_part_lines = st3.wo_part_lines ∧
    st4.batch_lines = st3.batch_lines ∧ st4.work_orders = st3.work_orders := by
  unfold svc_update_auto_status at h
  dsimp only at h
  split at h
  · cases h
  · split at h
    · obtain rfl : _ = st4 := by injection h with h2; injection h2 with hb hst
      exact ⟨rfl, rfl, rfl, rfl⟩
    · obtain rfl : st3 = st4 := by injection h with h2; injection h2 with hb hst
      exact ⟨rfl, rfl, rfl, rfl⟩

/-- `svc_update_procurement_line` preserves every allocation's id and
status (the engine's write-back rewrites quantities only). -/
theorem update_procurement_line_prStatus (st : State) (blid v p : String)
    (oq nr : Int) (cb : String) (b : Bool) (st1 : State)
    (h : svc_update_procurement_line st blid v p oq nr cb = some (b, st1)) :
    st1.allocations.map prStatus = st.allocations.map prStatus := by
  unfold svc_update_procurement_line at h
  dsimp only at h
  split at h
  · obtain rfl : st = st1 := by injection h with h2; injection h2 with hb hst
    rfl
  · split at h
    · obtain rfl : st = st1 := by injection h with h2; injection h2 with hb hst
      rfl
    · split at h
      · obtain rfl : st = st1 := by injection h with h2; injection h2 with hb hst
        rfl
      · rw [(update_auto_status_tables _ _ _ _ h).1]
        split
        · exact map_prStatus_of_strip _ _ (engine_allocations_strip _ _ _ _)
        · rfl

/-- `resetAllocationToAuto` rewrites the statuses of the line's
allocations to `Allocated` (clearing `ManualOverride`) and leaves every
other allocation's status alone. -/
theorem reset_allocation_prStatus (st : State) (blid cb : String) (st1 : State)
    (h : svc_reset_allocation_to_auto st blid cb = some st1) :
    st1.allocations.map prStatus
      = st.allocations.map (fun a => (a.allocation_id,
          if a.batch_line_id == blid then "Allocated" else a.allocation_status)) := by
  unfold svc_reset_allocation_to_auto at h
  dsimp only at h
  split at h
  · cases h
  · obtain rfl : _ = st1 := by injection h
    show List.map prStatus (svc_run_allocation_engine _ blid _ 0).allocations = _
    rw [map_prStatus_of_strip _ _ (engine_allocations_strip _ blid _ 0)]
    show List.map prStatus (st.allocations.map _) = _
    rw [List.map_map]
    apply List.map_congr_left
    intro a _
    simp only [Function.comp_apply]
    split <;> rfl

/-- Spec §8 scenario: WO-A manually overridden at 17, WO-B automatic at 5,
line received 25. -/
def c2_st : State :=
  { work_orders := [⟨"WO-A", "B1", "Critical", 1, "W"⟩, ⟨"WO-B", "B1", "Normal", 5, "W"⟩],
    wo_part_lines := [⟨"LN-A", "WO-A", "P1", "PART", 20, 17⟩,
                      ⟨"LN-B", "WO-B", "P1", "PART", 10, 5⟩],
    batches := [⟨"BATCH-0001", "B1", "Partially Received"⟩],
    batch_lines := [⟨"BL-0001", "BATCH-0001", "P1", "PART", 30, "", "", 0, 15⟩],
    allocations := [⟨"ALLOC-0001", "BL-0001", "WO-A", "LN-A", 17, "ManualOverride"⟩,
                    ⟨"ALLOC-0002", "BL-0001", "WO-B", "LN-B", 5, "Allocated"⟩],
    audit_log := [], allocation_mode := "Priority First then FIFO" }

/-- C2 (amended): `runAllocation` with a negative delta skips
`ManualOverride` rows entirely (their quantity and status survive, and the
engine returns normally even when the reduction is thereby only partially
applied — see the concrete conjunct, where removing 10 from a line whose
only reducible row holds 5 strands 17 > the new received 15 without an
error); `transitionBatch`, `createBatch` and `updateProcurementLine`
never change any allocation's status; but the protection is cleared not
only by `resetAllocationToAuto` (which rewrites the line's statuses to
`Allocated`) — `applyAllocationOverride` also rewrites a `ManualOverride`
status to the edit's supplied status when the edited quantity equals the
current one (see the counterexample). -/
theorem C2_amended_manual_override_protection :
    (∀ (st : State) (blid : String) (nr orr : Int),
      (st.allocations.map (fun a => a.allocation_id)).Nodup → nr < orr →
      List.Forall₂ (fun a b : Allocation =>
        b.allocation_id = a.allocation_id ∧ b.allocation_status = a.allocation_status ∧
        (a.allocation_status = "ManualOverride" → b.allocated_qty = a.allocated_qty))
        st.allocations (svc_run_allocation_engine st blid nr orr).allocations)
    ∧ (∀ (st : State) (bid ns cb : String),
        (svc_transition_batch st bid ns cb).2.allocations = st.allocations)
    ∧ (∀ (st : State) (br : String) (sel : List String) (cb : String) (sub : Bool),
        ∃ suffix, (svc_create_batch st br sel cb sub).2.allocations
          = st.allocations ++ suffix)
    ∧ (∀ (st : State) (blid v p : String) (oq nr : Int) (cb : String) (b : Bool)
        (st1 : State), svc_update_procurement_line st blid v p oq nr cb = some (b, st1) →
        st1.allocations.map prStatus = st.allocations.map prStatus)
    ∧ (∀ (st : State) (blid cb : String) (st1 : State),
        svc_reset_allocation_to_auto st blid cb = some st1 →
        st1.allocations.map prStatus
          = st.allocations.map (fun a => (a.allocation_id,
              if a.batch_line_id == blid then "Allocated" else a.allocation_status)))
    ∧ ((svc_run_allocation_engine c2_st "BL-0001" 15 25).allocations.map
        (fun a => (a.allocated_qty, a.allocation_status)))
        = [(17, "ManualOverride"), (0, "Allocated")] :=
  ⟨engine_neg_preserves_MO, transition_batch_allocations, create_batch_allocations_append,
   update_procurement_line_prStatus, reset_allocation_prStatus, by decide⟩

/-- State with a single manually-overridden allocation at 5 of 10. -/
def c2x_st : State :=
  { work_orders := [⟨"WO-A", "B1", "Critical", 1, "W"⟩],
    wo_part_lines := [⟨"LN-A", "WO-A", "P1", "PART", 10, 5⟩],
    batches := [⟨"BATCH-0001", "B1", "Partially Received"⟩],
    batch_lines := [⟨"BL-0001", "BATCH-0001", "P1", "PART", 10, "", "", 0, 5⟩],
    allocations := [⟨"ALLOC-0001", "BL-0001", "WO-A", "LN-A", 5, "ManualOverride"⟩],
    audit_log := [], allocation_mode := "Priority First then FIFO" }

/-- C2 counterexample: `resetAllocationToAuto` is *not* the only core
operation that clears the `ManualOverride` protection —
`applyAllocationOverride` with the quantity left at its current value and
status column `Allocated` succeeds and rewrites the status to
`Allocated`. -/
theorem C2_counterexample_override_clears_protection :
    (c2x_st.allocations.map (fun a => a.allocation_status)) = ["ManualOverride"]
    ∧ ((svc_apply_allocation_override c2x_st [⟨"ALLOC-0001", 5, "Allocated"⟩]
        "BL-0001" "U").map
        (fun p => (p.1, p.2.allocations.map (fun a => (a.allocated_qty, a.allocation_status)))))
      = some (true, [(5, "Allocated")]) := by
  exact ⟨by decide, by decide⟩

/-- Witness for the amended C2 theorem: its negative-delta conjunct applied
at the spec's own scenario state. -/
theorem C2_amended_manual_override_protection_witness :
    List.Forall₂ (fun a b : Allocation =>
      b.allocation_id = a.allocation_id ∧ b.allocation_status = a.allocation_status ∧
      (a.allocation_status = "ManualOverride" → b.allocated_qty = a.allocated_qty))
      c2_st.allocations (svc_run_allocation_engine c2_st "BL-0001" 15 25).allocations :=
  C2_amended_manual_override_protection.1 c2_st "BL-0001" 15 25 (by decide) (by decide)

-- ── C9 ──

/-- The engine only rewrites `allocations` and `wo_part_lines`. -/
theorem engine_other_tables (st : State) (blid : String) (nr orr : Int) :
    (svc_run_allocation_engine st blid nr orr).batches = st.batches
    ∧ (svc_run_allocation_engine st blid nr orr).batch_lines = st.batch_lines
    ∧ (svc_run_allocation_engine st blid nr orr).audit_log = st.audit_log
    ∧ (svc_run_allocation_engine st blid nr orr).work_orders = st.work_orders
    ∧ (svc_run_allocation_engine st blid nr orr).allocation_mode = st.allocation_mode := by
  unfold svc_run_allocation_engine
  dsimp only
  split
  · exact ⟨rfl, rfl, rfl, rfl, rfl⟩
  · split
    · exact ⟨rfl, rfl, rfl, rfl, rfl⟩
    · split
      · exact ⟨rfl, rfl, rfl, rfl, rfl⟩
      · exact ⟨rfl, rfl, rfl, rfl, rfl⟩

/-- In a table with duplicate-free batch ids, `find?` on an id returns
exactly the member carrying it. -/
theorem find?_batch_eq_some (l : List Batch) (B : Batch) (bid : String)
    (hnodup : (l.map (fun x => x.batch_id)).Nodup) (hB : B ∈ l)
    (hbid : B.batch_id = bid) :
    l.find? (fun x => x.batch_id == bid) = some B := by
  induction l with
  | nil => cases hB
  | cons a t ih =>
    rcases List.mem_cons.mp hB with rfl | hBt
    · rw [List.find?_cons_of_pos _ (by simp [hbid])]
    · have hna : ¬(a.batch_id = bid) := by
        intro hab
        have : a.batch_id ∈ t.map (fun x => x.batch_id) :=
          List.mem_map.mpr ⟨B, hBt, (hbid.trans hab.symm).symm ▸ rfl⟩
        exact (List.nodup_cons.mp hnodup).1 (by simpa using this)
      rw [List.find?_cons_of_neg _ (by simp [hna])]
      exact ih (List.nodup_cons.mp hnodup).2 hBt

/-- Modelled from the spec: the derived batch status formula — `Under
Procurement` when total received is 0, `Fully Received` when total
received is at least total required, `Partially Received` otherwise. -/
def recalcFormula (lines : List BatchLine) : String :=
  if sumBy lines (fun l => l.received_qty) = 0 then "Under Procurement"
  else if sumBy lines (fun l => l.received_qty)
      ≥ sumBy lines (fun l => l.total_required_qty) then "Fully Received"
  else "Partially Received"

/-- On a batch with at least one line, `svc_recalc_batch_status` computes
exactly the spec's formula. -/
theorem recalc_eq_formula (st : State) (bid : String)
    (hne : st.batch_lines.filter (fun l => l.batch_id == bid) ≠ []) :
    svc_recalc_batch_status st bid
      = recalcFormula (st.batch_lines.filter (fun l => l.batch_id == bid)) := by
  unfold svc_recalc_batch_status recalcFormula
  rw [if_neg (by simpa [List.isEmpty_iff] using hne)]
  by_cases h0 : sumBy (st.batch_lines.filter (fun l => l.batch_id == bid))
      (fun l => l.received_qty) = 0
  · simp [h0]
  · rw [if_neg (by simpa using h0), if_neg h0]

/-- `recalcFormula` returns one of three short literals, so the audit
truncation is the identity on it. -/
theorem recalcFormula_slice (lines : List BatchLine) :
    python_slice500 (recalcFormula lines) = recalcFormula lines := by
  unfold recalcFormula
  split
  · decide
  · split
    · decide
    · decide

/-- The six batch statuses are short, so truncation is the identity. -/
theorem status_slice_id (s : String)
    (h : s ∈ ["Draft", "Subm to Procurement", "Under Procurement",
      "Partially Received", "Fully Received", "Closed"]) :
    python_slice500 s = s := by
  fin_cases h <;> decide

/-- Rewriting each matching batch's status to its own status, as the
no-change case of the auto-recompute, is the identity. -/
theorem map_rewrite_same_status (l : List Batch) (B : Batch) (bid : String)
    (hnodup : (l.map (fun x => x.batch_id)).Nodup) (hB : B ∈ l)
    (hbid : B.batch_id = bid) :
    l.map (fun x => if x.batch_id == bid then { x with batch_status := B.batch_status }
      else x) = l := by
  have : ∀ x ∈ l, (if x.batch_id == bid then { x with batch_status := B.batch_status }
      else x) = x := by
    intro x hx
    by_cases hxb : x.batch_id = bid
    · have hxB : x = B := List.inj_on_of_nodup_map hnodup hx hB (hxb.trans hbid.symm)
      subst hxB
      simp
    · simp [hxb]
  calc l.map _ = l.map id := List.map_congr_left this
  _ = l := List.map_id l

/-- For one of the six batch statuses, the code's "not Closed/Draft/Subm
to Procurement" test coincides with membership in the three
auto-recomputable statuses. -/
theorem status_cond_equiv (s : String)
    (hvalid : s ∈ ["Draft", "Subm to Procurement", "Under Procurement",
      "Partially Received", "Fully Received", "Closed"]) :
    (¬ (s == "Closed" || s == "Draft" || s == "Subm to Procurement") = true
      ↔ s ∈ ["Under Procurement", "Partially Received", "Fully Received"]) := by
  simp only [List.mem_cons, List.not_mem_nil, or_false] at hvalid
  rcases hvalid with h | h | h | h | h | h <;> subst h <;> decide

/-- Behaviour of the auto-status tail on a well-formed batch: persists the
recomputed formula status with one `STATUS_AUTO` audit entry exactly when
the current status is `Under Procurement`/`Partially Received`/`Fully
Received` and the formula differs; otherwise nothing changes. -/
theorem auto_status_spec (st3 : State) (bid : String) (B : Batch) (st1 : State)
    (hB3 : st3.batches.find? (fun x => x.batch_id == bid) = some B)
    (hne : st3.batch_lines.filter (fun l => l.batch_id == bid) ≠ [])
    (hvalid : B.batch_status ∈ ["Draft", "Subm to Procurement", "Under Procurement",
      "Partially Received", "Fully Received", "Closed"])
    (h : svc_update_auto_status st3 bid = some (true, st1)) :
    ((B.batch_status ∈ ["Under Procurement", "Partially Received", "Fully Received"]
        ∧ recalcFormula (st3.batch_lines.filter (fun l => l.batch_id == bid))
            ≠ B.batch_status) →
      st1.batches = st3.batches.map (fun x => if x.batch_id == bid then
          { x with batch_status :=
              recalcFormula (st3.batch_lines.filter (fun l => l.batch_id == bid)) }
        else x)
      ∧ ∃ e2, st1.audit_log = st3.audit_log ++ [e2] ∧ e2.action = "STATUS_AUTO"
          ∧ e2.old_value = B.batch_status
          ∧ e2.new_value
              = recalcFormula (st3.batch_lines.filter (fun l => l.batch_id == bid))
          ∧ e2.entity_type = "Batch" ∧ e2.entity_id = bid ∧ e2.changed_by = "System")
    ∧ (¬ (B.batch_status ∈ ["Under Procurement", "Partially Received", "Fully Received"]
        ∧ recalcFormula (st3.batch_lines.filter (fun l => l.batch_id == bid))
            ≠ B.batch_status) →
      st1 = st3) := by
  unfold svc_update_auto_status at h
  dsimp only at h
  rw [hB3] at h
  dsimp only at h
  rw [recalc_eq_formula st3 bid hne] at h
  split at h
  · rename_i hc
    obtain rfl : _ = st1 := by
      injection h with h2
      injection h2 with hb hst
    constructor
    · intro _
      refine ⟨rfl, ⟨_, rfl, rfl, ?_, ?_, rfl, rfl, rfl⟩⟩
      · exact status_slice_id B.batch_status hvalid
      · exact recalcFormula_slice _
    · intro hnc
      exact absurd ⟨(status_cond_equiv _ hvalid).mp hc.1, hc.2⟩ hnc
  · rename_i hc
    obtain rfl : st3 = st1 := by
      injection h with h2
      injection h2 with hb hst
    refine ⟨?_, fun _ => rfl⟩
    intro hch
    exact absurd ⟨(status_cond_equiv _ hvalid).mpr hch.1, hch.2⟩ hc

/-- One batch line after the procurement edit writes its fields. -/
def bl_update (l : BatchLine) (v p : String) (oq nr : Int) : BatchLine :=
  { l with vendor := v, po_numbers := p, ordered_qty := oq, received_qty := nr }

/-- The batch-lines table after `svc_update_procurement_line` writes the
edited procurement fields. -/
def updated_batch_lines (st : State) (blid v p : String) (oq nr : Int) : List BatchLine :=
  st.batch_lines.map (fun l => if l.batch_line_id == blid then bl_update l v p oq nr else l)

/-- C9: after every successful `updateProcurementLine`, the derived batch
status is recomputed by the formula (`Under Procurement` when total
received is 0, `Fully Received` when it reaches total required, else
`Partially Received`) over the updated lines, and persisted — with its own
`STATUS_AUTO` audit entry following the `PROCUREMENT_UPDATE` entry, and
distinct from a manual transition's `STATUS_CHANGE` — exactly when the
batch's current status is one of `Under Procurement`/`Partially
Received`/`Fully Received` and the recomputed status differs; a batch in
`Draft`, `Subm to Procurement` or `Closed` is never auto-changed. -/
theorem C9_derived_status_recompute
    (st : State) (blid v p : String) (oq nr : Int) (cb : String) (st1 : State)
    (row : BatchLine) (B : Batch)
    (hrow : st.batch_lines.find? (fun l => l.batch_line_id == blid) = some row)
    (hB : B ∈ st.batches) (hBid : B.batch_id = row.batch_id)
    (hnodupB : (st.batches.map (fun x => x.batch_id)).Nodup)
    (hvalid : B.batch_status ∈ ["Draft", "Subm to Procurement", "Under Procurement",
      "Partially Received", "Fully Received", "Closed"])
    (hsucc : svc_update_procurement_line st blid v p oq nr cb = some (true, st1)) :
    ((B.batch_status ∈ ["Under Procurement", "Partially Received", "Fully Received"]
        ∧ recalcFormula ((updated_batch_lines st blid v p oq nr).filter
            (fun l => l.batch_id == row.batch_id)) ≠ B.batch_status) →
      st1.batches = st.batches.map (fun x => if x.batch_id == row.batch_id then
          { x with batch_status := recalcFormula ((updated_batch_lines st blid v p oq
              nr).filter (fun l => l.batch_id == row.batch_id)) } else x)
      ∧ ∃ e1 e2, st1.audit_log = st.audit_log ++ [e1, e2]
          ∧ e1.action = "PROCUREMENT_UPDATE" ∧ e2.action = "STATUS_AUTO"
          ∧ e2.old_value = B.batch_status
          ∧ e2.new_value = recalcFormula ((updated_batch_lines st blid v p oq nr).filter
              (fun l => l.batch_id == row.batch_id)))
    ∧ (¬ (B.batch_status ∈ ["Under Procurement", "Partially Received", "Fully Received"]
        ∧ recalcFormula ((updated_batch_lines st blid v p oq nr).filter
            (fun l => l.batch_id == row.batch_id)) ≠ B.batch_status) →
      st1.batches = st.batches
      ∧ ∃ e1, st1.audit_log = st.audit_log ++ [e1] ∧ e1.action = "PROCUREMENT_UPDATE") := by
  unfold svc_update_procurement_line at hsucc
  rw [hrow] at hsucc
  dsimp only at hsucc
  split at hsucc
  · exfalso
    injection hsucc with h2
    injection h2 with hb hst
    cases hb
  · split at hsucc
    · exfalso
      injection hsucc with h2
      injection h2 with hb hst
      cases hb
    · obtain ⟨st3, hbat, hbl, haud, hs3⟩ :
          ∃ st3, st3.batches = st.batches
            ∧ st3.batch_lines = updated_batch_lines st blid v p oq nr
            ∧ (∃ e1, st3.audit_log = st.audit_log ++ [e1]
                ∧ e1.action = "PROCUREMENT_UPDATE")
            ∧ svc_update_auto_status st3 row.batch_id = some (true, st1) := by
        refine ⟨_, ?_, ?_, ?_, hsucc⟩
        · split
          · exact (engine_other_tables _ _ _ _).1
          · rfl
        · split
          · exact ((engine_other_tables _ _ _ _).2.1).trans rfl
          · rfl
        · split
          · exact ⟨_, ((engine_other_tables _ _ _ _).2.2.1).trans rfl, rfl⟩
          · exact ⟨_, rfl, rfl⟩
      have hfind3 : st3.batches.find? (fun x => x.batch_id == row.batch_id) = some B := by
        rw [hbat]
        exact find?_batch_eq_some st.batches B row.batch_id hnodupB hB hBid
      have hne3 : st3.batch_lines.filter (fun l => l.batch_id == row.batch_id) ≠ [] := by
        rw [hbl]
        intro hemp
        have hrowmem := List.mem_of_find?_eq_some hrow
        have hrowpred := List.find?_some hrow
        have hmemupd : bl_update row v p oq nr ∈ updated_batch_lines st blid v p oq nr := by
          unfold updated_batch_lines
          refine List.mem_map.mpr ⟨row, hrowmem, ?_⟩
          rw [if_pos hrowpred]
        have hmemf : bl_update row v p oq nr ∈ (updated_batch_lines st blid v p oq
            nr).filter (fun l => l.batch_id == row.batch_id) :=
          List.mem_filter.mpr ⟨hmemupd, by simp [bl_update]⟩
        rw [hemp] at hmemf
        cases hmemf
      have hspec := auto_status_spec st3 row.batch_id B st1 hfind3 hne3 hvalid hs3
      rw [hbat, hbl] at hspec
      obtain ⟨e1, haud1, hact1⟩ := haud
      constructor
      · intro hch
        obtain ⟨hbatches, e2, he2, hfields⟩ := hspec.1 hch
        refine ⟨hbatches, e1, e2, ?_, hact1, hfields.1, hfields.2.1, hfields.2.2.1⟩
        rw [he2, haud1]
        simp
      · intro hnc
        have hst13 := hspec.2 hnc
        refine ⟨by rw [hst13, hbat], e1, by rw [hst13]; exact haud1, hact1⟩

/-- Concrete state for the C9 witness: one `Under Procurement` batch,
one line requiring 10, nothing received yet. -/
def c9w_st : State :=
  { work_orders := [], wo_part_lines := [],
    batches := [⟨"BATCH-0001", "B1", "Under Procurement"⟩],
    batch_lines := [⟨"BL-0001", "BATCH-0001", "P1", "PART", 10, "", "", 0, 0⟩],
    allocations := [], audit_log := [], allocation_mode := "Priority First then FIFO" }

/-- The state `svc_update_procurement_line` produces from `c9w_st` when 4
of 10 are received: status auto-advanced to `Partially Received` with a
`STATUS_AUTO` entry after the `PROCUREMENT_UPDATE` entry. -/
def c9w_st1 : State :=
  { work_orders := [], wo_part_lines := [],
    batches := [⟨"BATCH-0001", "B1", "Partially Received"⟩],
    batch_lines := [⟨"BL-0001", "BATCH-0001", "P1", "PART", 10, "V", "PO", 1, 4⟩],
    allocations := [],
    audit_log := [⟨"AUD-0001", "BatchLine", "BL-0001", "PROCUREMENT_UPDATE",
                    "received=0", "received=4", "U"⟩,
                  ⟨"AUD-0002", "Batch", "BATCH-0001", "STATUS_AUTO",
                    "Under Procurement", "Partially Received", "System"⟩],
    allocation_mode := "Priority First then FIFO" }

/-- Witness for C9: all hypotheses hold at the concrete receipt of 4 of
10 on an `Under Procurement` batch, which auto-advances to `Partially
Received`. -/
theorem C9_derived_status_recompute_witness :
    c9w_st1.batches = c9w_st.batches.map (fun x =>
      if x.batch_id == "BATCH-0001" then
        { x with batch_status := recalcFormula ((updated_batch_lines c9w_st "BL-0001"
            "V" "PO" 1 4).filter (fun l => l.batch_id == "BATCH-0001")) }
      else x) :=
  ((C9_derived_status_recompute c9w_st "BL-0001" "V" "PO" 1 4 "U" c9w_st1
      ⟨"BL-0001", "BATCH-0001", "P1", "PART", 10, "", "", 0, 0⟩
      ⟨"BATCH-0001", "B1", "Under Procurement"⟩
      (by decide) (by decide) (by decide) (by decide) (by decide) (by decide)).1
    (by decide)).1

-- ── C1 ──

/-- The positive-delta engine run is exactly: merge, sort, greedy fill,
write-back. -/
theorem engine_pos_closed (st : State) (blid : String) (d orr : Int)
    (hmode : st.allocation_mode = "Priority First then FIFO") (hd : 0 < d) :
    (svc_run_allocation_engine st blid (orr + d) orr).allocations
      = engine_writeback st.allocations
          (posLoop d (engine_sorted "Priority First then FIFO" (engine_rows st blid))) := by
  unfold svc_run_allocation_engine
  dsimp only
  rw [hmode]
  have hdelta : orr + d - orr = d := by omega
  rw [hdelta]
  rw [if_neg (by decide)]
  rw [if_neg (show ¬ ((d == 0) = true) by simp only [beq_iff_eq]; omega)]
  by_cases he : (engine_rows st blid).isEmpty
  · rw [if_pos he]
    have hrows : engine_rows st blid = [] := List.isEmpty_iff.mp he
    rw [hrows]
    show st.allocations = engine_writeback st.allocations (posLoop d (engine_sorted _ []))
    have hsorted : engine_sorted "Priority First then FIFO" ([] : List ARow) = [] := rfl
    rw [hsorted]
    show st.allocations = st.allocations.map _
    have : ∀ a ∈ st.allocations,
        (match (posLoop d []).find? (fun r => r.allocation_id == a.allocation_id) with
         | some r => { a with allocated_qty := r.allocated_qty }
         | none => a) = a := by
      intro a _
      rfl
    rw [List.map_congr_left this]
    simp
  · rw [if_neg he]
    dsimp only
    rw [if_pos (show d > 0 from hd)]

/-- Concrete spec scenario for C1: WO-A (Critical, day 1, required 20)
and WO-B (Normal, day 5, required 10) compete for batch line BL-0001. -/
def c1_st : State :=
  { work_orders := [⟨"WO-A", "B1", "Critical", 1, "Waiting Parts"⟩,
                    ⟨"WO-B", "B1", "Normal", 5, "Waiting Parts"⟩],
    wo_part_lines := [⟨"LN-A", "WO-A", "P1", "PART", 20, 0⟩,
                      ⟨"LN-B", "WO-B", "P1", "PART", 10, 0⟩],
    batches := [⟨"BATCH-0001", "B1", "Partially Received"⟩],
    batch_lines := [⟨"BL-0001", "BATCH-0001", "P1", "PART", 30, "", "", 0, 0⟩],
    allocations := [⟨"ALLOC-0001", "BL-0001", "WO-A", "LN-A", 0, "Allocated"⟩,
                    ⟨"ALLOC-0002", "BL-0001", "WO-B", "LN-B", 0, "Allocated"⟩],
    audit_log := [], allocation_mode := "Priority First then FIFO" }

/-- C1: in "Priority First then FIFO" mode with a positive delta, the
engine orders the line's allocations ascending by priority rank (ties by
ascending work-order creation date — the order realised by
`engine_sorted`, a permutation of the merged rows), walks that order
giving row `i` exactly `min(outstanding_i, remaining_i)` where
`remaining_i = max 0 (delta - Σ outstanding of earlier rows)` (so rows
after the delta is exhausted are unchanged), and writes the result back;
in particular the spec scenario receives 15 as A=15/B=0 and a further
+10 as A=20/B=5. -/
theorem C1_priority_fifo_positive_fill
    (st : State) (blid : String) (d orr : Int)
    (hmode : st.allocation_mode = "Priority First then FIFO") (hd : 0 < d) :
    ((engine_sorted "Priority First then FIFO" (engine_rows st blid)).Perm
        (engine_rows st blid)
    ∧ List.Sorted (fun a b : ARow =>
        a.prank < b.prank ∨ (a.prank = b.prank ∧ a.created_date ≤ b.created_date))
        (engine_sorted "Priority First then FIFO" (engine_rows st blid))
    ∧ (svc_run_allocation_engine st blid (orr + d) orr).allocations
        = engine_writeback st.allocations
            (posLoop d (engine_sorted "Priority First then FIFO" (engine_rows st blid)))
    ∧ (∀ i : Nat,
        ((posLoop d (engine_sorted "Priority First then FIFO"
            (engine_rows st blid))).getD i ARow.dflt).allocated_qty
          = ((engine_sorted "Priority First then FIFO"
              (engine_rows st blid)).getD i ARow.dflt).allocated_qty
            + min ((engine_sorted "Priority First then FIFO"
                (engine_rows st blid)).getD i ARow.dflt).outstanding
                (max 0 (d - sumBy ((engine_sorted "Priority First then FIFO"
                  (engine_rows st blid)).take i) (fun r => r.outstanding)))))
    ∧ ((svc_run_allocation_engine c1_st "BL-0001" 15 0).allocations.map
        (fun a => a.allocated_qty)) = [15, 0]
    ∧ ((svc_run_allocation_engine (svc_run_allocation_engine c1_st "BL-0001" 15 0)
        "BL-0001" 25 15).allocations.map (fun a => a.allocated_qty)) = [20, 5] := by
  refine ⟨⟨engine_sorted_perm _ _, ?_, engine_pos_closed st blid d orr hmode hd, ?_⟩,
    by decide, by decide⟩
  · refine ((engine_sorted_sorted "Priority First then FIFO" (engine_rows st blid)).imp ?_)
    intro a b hab
    simpa [engine_key, keyLe] using hab
  · intro i
    apply posLoop_getD
    intro r hr
    exact engine_rows_outstanding_nonneg st blid r
      ((engine_sorted_perm "Priority First then FIFO" (engine_rows st blid)).subset hr)

/-- Witness for C1: the general conjuncts applied to the concrete
scenario state itself (delta 15 from 0). -/
theorem C1_priority_fifo_positive_fill_witness :
    (svc_run_allocation_engine c1_st "BL-0001" (0 + 15) 0).allocations
      = engine_writeback c1_st.allocations
          (posLoop 15 (engine_sorted "Priority First then FIFO"
            (engine_rows c1_st "BL-0001"))) :=
  (C1_priority_fifo_positive_fill c1_st "BL-0001" 15 0 (by decide) (by decide)).1.2.2.1

-- ── C8 ──

theorem dedupKeys_nodup (ks : List (String × String)) : (dedupKeys ks).Nodup := by
  induction ks with
  | nil => exact List.nodup_nil
  | cons k rest ih =>
    unfold dedupKeys
    refine List.nodup_cons.mpr ⟨?_, List.Nodup.filter _ ih⟩
    intro hmem
    have := List.of_mem_filter hmem
    simp at this

theorem mem_dedupKeys (ks : List (String × String)) (x : String × String) :
    x ∈ dedupKeys ks ↔ x ∈ ks := by
  induction ks with
  | nil => simp [dedupKeys]
  | cons k rest ih =>
    unfold dedupKeys
    constructor
    · intro h
      rcases List.mem_cons.mp h with rfl | h2
      · exact List.mem_cons_self _ _
      · exact List.mem_cons_of_mem _ (ih.mp (List.mem_of_mem_filter h2))
    · intro h
      rcases List.mem_cons.mp h with rfl | h2
      · exact List.mem_cons_self _ _
      · by_cases hxk : x = k
        · exact hxk ▸ List.mem_cons_self _ _
        · refine List.mem_cons_of_mem _ (List.mem_filter.mpr ⟨ih.mpr h2, ?_⟩)
          simp [hxk]

theorem group_keys_nodup (ls : List WOPartLine) : (group_keys ls).Nodup :=
  ((List.perm_insertionSort keyPairLe _).nodup_iff).mpr (dedupKeys_nodup _)

theorem mem_group_keys (ls : List WOPartLine) (x : String × String) :
    x ∈ group_keys ls ↔ x ∈ ls.map (fun l => (l.part_no, l.part_desc)) := by
  unfold group_keys
  rw [(List.perm_insertionSort keyPairLe _).mem_iff]
  exact mem_dedupKeys _ _

/-- All allocation stubs minted by the inner loop are zero-valued
`Allocated` rows of the given batch line, one per part line in order. -/
theorem create_alloc_loop_shape (st : State) (bl_id : String) :
    ∀ (ls : List WOPartLine) (exa : List String),
      ((create_alloc_loop st bl_id ls exa).map (fun a => a.line_id))
          = ls.map (fun l => l.line_id)
      ∧ ∀ a ∈ create_alloc_loop st bl_id ls exa,
          a.allocated_qty = 0 ∧ a.allocation_status = "Allocated"
          ∧ a.batch_line_id = bl_id := by
  intro ls
  induction ls with
  | nil => exact fun exa => ⟨rfl, by intro a ha; cases ha⟩
  | cons pl ps ih =>
    intro exa
    unfold create_alloc_loop
    refine ⟨?_, ?_⟩
    · simp only [List.map_cons]
      rw [(ih _).1]
    · intro a ha
      rcases List.mem_cons.mp ha with rfl | h2
      · exact ⟨rfl, rfl, rfl⟩
      · exact (ih _).2 a h2

/-- The outer loop builds one batch line per group key, an allocation
stub per matching part line, and nothing else. -/
theorem create_group_loop_shape (st : State) (eligible : List WOPartLine) (nid : String) :
    ∀ (keys : List (String × String)) (exb exa : List String),
      ((create_group_loop st eligible nid keys exb exa).1.map
          (fun b => (b.part_no, b.part_desc))) = keys
      ∧ (∀ b ∈ (create_group_loop st eligible nid keys exb exa).1,
          b.total_required_qty = sumBy (eligible.filter
              (fun l => l.part_no == b.part_no && l.part_desc == b.part_desc))
            wpl_outstanding
          ∧ b.batch_id = nid ∧ b.received_qty = 0 ∧ b.ordered_qty = 0)
      ∧ ((create_group_loop st eligible nid keys exb exa).2.map (fun a => a.line_id))
          = keys.flatMap (fun k => (eligible.filter (fun l => l.part_no == k.1)).map
              (fun l => l.line_id))
      ∧ (∀ a ∈ (create_group_loop st eligible nid keys exb exa).2,
          a.allocated_qty = 0 ∧ a.allocation_status = "Allocated") := by
  intro keys
  induction keys with
  | nil =>
    intro exb exa
    refine ⟨rfl, ?_, by simp [create_group_loop], ?_⟩
    · intro b hb; cases hb
    · intro a ha; cases ha
  | cons k rest ih =>
    intro exb exa
    unfold create_group_loop
    dsimp only
    refine ⟨?_, ?_, ?_, ?_⟩
    · simp only [List.map_cons]
      rw [(ih _ _).1]
    · intro b hb
      rcases List.mem_cons.mp hb with rfl | h2
      · exact ⟨rfl, rfl, rfl, rfl⟩
      · exact (ih _ _).2.1 b h2
    · rw [List.map_append, (ih _ _).2.2.1,
        (create_alloc_loop_shape st _ (eligible.filter (fun l => l.part_no == k.1)) exa).1]
      rw [List.flatMap_cons]
    · intro a ha
      rcases List.mem_append.mp ha with h2 | h2
      · obtain ⟨hq, hs, _⟩ := (create_alloc_loop_shape st _ _ exa).2 a h2
        exact ⟨hq, hs⟩
      · exact (ih _ _).2.2.2 a h2

theorem count_flatMap (f : α → List String) (x : String) :
    ∀ l : List α, ((l.flatMap f).count x) = (l.map (fun k => (f k).count x)).sum := by
  intro l
  induction l with
  | nil => rfl
  | cons k rest ih =>
    rw [List.flatMap_cons, List.count_append, List.map_cons, List.sum_cons, ih]

theorem sum_map_eq_single (l : List α) (f : α → Nat) (k0 : α)
    (hmem : k0 ∈ l) (hnodup : l.Nodup)
    (hzero : ∀ k ∈ l, k ≠ k0 → f k = 0) :
    (l.map f).sum = f k0 := by
  induction l with
  | nil => cases hmem
  | cons a rest ih =>
    rw [List.map_cons, List.sum_cons]
    rcases List.mem_cons.mp hmem with rfl | h2
    · have : ∀ k ∈ rest, f k = 0 := by
        intro k hk
        refine hzero k (List.mem_cons_of_mem _ hk) ?_
        intro hkk
        exact (List.nodup_cons.mp hnodup).1 (hkk ▸ hk)
      have hrest : (rest.map f).sum = 0 := by
        apply List.sum_eq_zero
        intro y hy
        obtain ⟨k, hk, rfl⟩ := List.mem_map.mp hy
        exact this k hk
      omega
    · have hane : a ≠ k0 := by
        intro hak
        exact (List.nodup_cons.mp hnodup).1 (hak ▸ h2)
      rw [hzero a (List.mem_cons_self _ _) hane,
        ih h2 (List.nodup_cons.mp hnodup).2
          (fun k hk => hzero k (List.mem_cons_of_mem _ hk))]
      omega

/-- Under a consistent part catalogue, distinct group keys carry distinct
part numbers. -/
theorem group_keys_inj_fst (st : State) (sel : List String)
    (hdesc : ∀ l1 ∈ eligible_lines st sel, ∀ l2 ∈ eligible_lines st sel,
      l1.part_no = l2.part_no → l1.part_desc = l2.part_desc) :
    ∀ k1 ∈ group_keys (eligible_lines st sel), ∀ k2 ∈ group_keys (eligible_lines st sel),
      k1.1 = k2.1 → k1 = k2 := by
  intro k1 h1 k2 h2 hfst
  obtain ⟨l1, hl1, hk1⟩ := List.mem_map.mp ((mem_group_keys _ _).mp h1)
  obtain ⟨l2, hl2, hk2⟩ := List.mem_map.mp ((mem_group_keys _ _).mp h2)
  have hpn : l1.part_no = l2.part_no := by
    have e1 : k1.1 = l1.part_no := by rw [← hk1]
    have e2 : k2.1 = l2.part_no := by rw [← hk2]
    rw [← e1, ← e2, hfst]
  have hpd : l1.part_desc = l2.part_desc := hdesc l1 hl1 l2 hl2 hpn
  rw [← hk1, ← hk2, hpn, hpd]

/-- Each eligible part line receives exactly one allocation stub across
all groups (its own part number's group). -/
theorem create_line_count (st : State) (sel : List String)
    (hdesc : ∀ l1 ∈ eligible_lines st sel, ∀ l2 ∈ eligible_lines st sel,
      l1.part_no = l2.part_no → l1.part_desc = l2.part_desc)
    (hnodupL : ((eligible_lines st sel).map (fun l => l.line_id)).Nodup)
    (pl : WOPartLine) (hpl : pl ∈ eligible_lines st sel) :
    (((group_keys (eligible_lines st sel)).flatMap (fun k =>
        ((eligible_lines st sel).filter (fun l => l.part_no == k.1)).map
          (fun l => l.line_id))).count pl.line_id) = 1 := by
  have hk0 : (pl.part_no, pl.part_desc) ∈ group_keys (eligible_lines st sel) :=
    (mem_group_keys _ _).mpr (List.mem_map.mpr ⟨pl, hpl, rfl⟩)
  rw [count_flatMap]
  have hone : (((eligible_lines st sel).filter
      (fun l => l.part_no == (pl.part_no, pl.part_desc).1)).map
        (fun l => l.line_id)).count pl.line_id = 1 := by
    apply List.count_eq_one_of_mem
    · exact hnodupL.sublist ((List.filter_sublist _).map _)
    · exact List.mem_map.mpr ⟨pl, List.mem_filter.mpr ⟨hpl, by simp⟩, rfl⟩
  have hzero : ∀ k ∈ group_keys (eligible_lines st sel), k ≠ (pl.part_no, pl.part_desc) →
      (((eligible_lines st sel).filter (fun l => l.part_no == k.1)).map
        (fun l => l.line_id)).count pl.line_id = 0 := by
    intro k hk hne
    rw [List.count_eq_zero]
    intro hmem
    obtain ⟨l2, hl2f, hl2id⟩ := List.mem_map.mp hmem
    have hl2 : l2 ∈ eligible_lines st sel := List.mem_of_mem_filter hl2f
    have hl2pl : l2 = pl := List.inj_on_of_nodup_map hnodupL hl2 hpl hl2id
    subst hl2pl
    have hpn : l2.part_no = k.1 := by simpa using List.of_mem_filter hl2f
    exact hne (group_keys_inj_fst st sel hdesc k hk (l2.part_no, l2.part_desc) hk0
      (by rw [← hpn]))
  rw [sum_map_eq_single (group_keys (eligible_lines st sel)) _ (pl.part_no, pl.part_desc)
    hk0 (group_keys_nodup _) hzero]
  exact hone

/-- C8 (amended): a successful `createBatch` creates exactly one batch
line per distinct `(part number, description)` pair among *all* part
lines of the selected work orders (the service performs no `Ready` or
locked filtering itself — a locked line instead fails the whole call, and
`Ready` lines are filtered only by the UI), each with `totalRequiredQty`
summing those lines' outstanding quantities, and exactly one zero-valued
`Allocated` stub per underlying part line; on validation failure nothing
is written. -/
theorem C8_amended_create_batch
    (st : State) (br : String) (sel : List String) (cb : String) (sub : Bool)
    (hdesc : ∀ l1 ∈ eligible_lines st sel, ∀ l2 ∈ eligible_lines st sel,
      l1.part_no = l2.part_no → l1.part_desc = l2.part_desc)
    (hnodupL : ((eligible_lines st sel).map (fun l => l.line_id)).Nodup) :
    ((svc_create_batch st br sel cb sub).1 = false
      → (svc_create_batch st br sel cb sub).2 = st)
    ∧ ((svc_create_batch st br sel cb sub).1 = true →
      ∃ newLines newAllocs,
        (svc_create_batch st br sel cb sub).2.batch_lines = st.batch_lines ++ newLines
        ∧ (svc_create_batch st br sel cb sub).2.allocations = st.allocations ++ newAllocs
        ∧ newLines.map (fun b => (b.part_no, b.part_desc))
            = group_keys (eligible_lines st sel)
        ∧ (group_keys (eligible_lines st sel)).Nodup
        ∧ (∀ b ∈ newLines,
            b.total_required_qty = sumBy ((eligible_lines st sel).filter
              (fun l => l.part_no == b.part_no)) wpl_outstanding
            ∧ b.received_qty = 0)
        ∧ (∀ a ∈ newAllocs, a.allocated_qty = 0 ∧ a.allocation_status = "Allocated")
        ∧ (∀ pl ∈ eligible_lines st sel,
            ((newAllocs.map (fun a => a.line_id)).count pl.line_id) = 1)
        ∧ (∀ a ∈ newAllocs,
            a.line_id ∈ (eligible_lines st sel).map (fun l => l.line_id))) := by
  unfold svc_create_batch
  dsimp only
  split
  · exact ⟨fun _ => rfl, fun h => by cases h⟩
  · split
    · exact ⟨fun _ => rfl, fun h => by cases h⟩
    · constructor
      · intro h
        cases h
      intro h9
      have hshape := create_group_loop_shape st (eligible_lines st sel)
        (next_id_from_list "BATCH" (st.batches.map (fun b => b.batch_id)))
        (group_keys (eligible_lines st sel)) [] []
      refine ⟨_, _, rfl, rfl, hshape.1, group_keys_nodup _, ?_, ?_, ?_, ?_⟩
      · intro b hb
        obtain ⟨htot, _, hrec, _⟩ := hshape.2.1 b hb
        refine ⟨?_, hrec⟩
        rw [htot]
        have hkey : (b.part_no, b.part_desc) ∈ group_keys (eligible_lines st sel) := by
          rw [← hshape.1]
          exact List.mem_map.mpr ⟨b, hb, rfl⟩
        obtain ⟨l0, hl0, hl0k⟩ := List.mem_map.mp ((mem_group_keys _ _).mp hkey)
        have hl0pn : l0.part_no = b.part_no := congrArg Prod.fst hl0k
        have hl0pd : l0.part_desc = b.part_desc := congrArg Prod.snd hl0k
        congr 1
        apply List.filter_congr
        intro l hl
        by_cases hp : l.part_no = b.part_no
        · have hld : l.part_desc = b.part_desc := by
            rw [← hl0pd]
            exact hdesc l hl l0 hl0 (by rw [hp, ← hl0pn])
          simp [hp, hld]
        · simp [hp]
      · exact hshape.2.2.2
      · intro pl hpl
        rw [hshape.2.2.1]
        exact create_line_count st sel hdesc hnodupL pl hpl
      · intro a ha
        have : a.line_id ∈ (create_group_loop st (eligible_lines st sel)
            (next_id_from_list "BATCH" (st.batches.map (fun b => b.batch_id)))
            (group_keys (eligible_lines st sel)) [] []).2.map (fun x => x.line_id) :=
          List.mem_map.mpr ⟨a, ha, rfl⟩
        rw [hshape.2.2.1] at this
        obtain ⟨k, hk, hmem⟩ := List.mem_flatMap.mp this
        obtain ⟨l, hlf, hlid⟩ := List.mem_map.mp hmem
        exact hlid ▸ List.mem_map.mpr ⟨l, List.mem_of_mem_filter hlf, rfl⟩

/-- A work order whose single part line is fully received (`Ready`). -/
def c8x_st : State :=
  { work_orders := [⟨"WO-0010", "B2", "High", 7, "Closed"⟩],
    wo_part_lines := [⟨"LN-0018", "WO-0010", "000000029761", "PUMP", 8, 8⟩],
    batches := [], batch_lines := [], allocations := [], audit_log := [],
    allocation_mode := "Priority First then FIFO" }

/-- C8 counterexample: `svc_create_batch` does *not* restrict itself to
not-yet-`Ready` part lines — selecting WO-0010, whose only line is
`Ready` (8 of 8 received), succeeds and still creates one batch line
(with `totalRequiredQty` 0) and one allocation stub for that line, where
the claim's eligibility rule says no batch line should exist at all. -/
theorem C8_counterexample_ready_line_included :
    ((eligible_lines c8x_st ["WO-0010"]).filter
        (fun l => ¬ (wpl_line_status l == "Ready"))) = []
    ∧ (svc_create_batch c8x_st "B2" ["WO-0010"] "U" false).1 = true
    ∧ ((svc_create_batch c8x_st "B2" ["WO-0010"] "U" false).2.batch_lines.map
        (fun b => (b.part_no, b.total_required_qty))) = [("000000029761", 0)]
    ∧ ((svc_create_batch c8x_st "B2" ["WO-0010"] "U" false).2.allocations.map
        (fun a => (a.line_id, a.allocated_qty))) = [("LN-0018", 0)] := by
  refine ⟨by decide, by decide, by decide, by decide⟩

/-- Witness for the amended C8 theorem at the concrete `Ready`-line
state (both hypotheses hold there). -/
theorem C8_amended_create_batch_witness :
    ∃ newLines newAllocs,
      (svc_create_batch c8x_st "B2" ["WO-0010"] "U" false).2.batch_lines
          = c8x_st.batch_lines ++ newLines
      ∧ (svc_create_batch c8x_st "B2" ["WO-0010"] "U" false).2.allocations
          = c8x_st.allocations ++ newAllocs
      ∧ newLines.map (fun b => (b.part_no, b.part_desc))
          = group_keys (eligible_lines c8x_st ["WO-0010"])
      ∧ (group_keys (eligible_lines c8x_st ["WO-0010"])).Nodup
      ∧ (∀ b ∈ newLines,
          b.total_required_qty = sumBy ((eligible_lines c8x_st ["WO-0010"]).filter
            (fun l => l.part_no == b.part_no)) wpl_outstanding
          ∧ b.received_qty = 0)
      ∧ (∀ a ∈ newAllocs, a.allocated_qty = 0 ∧ a.allocation_status = "Allocated")
      ∧ (∀ pl ∈ eligible_lines c8x_st ["WO-0010"],
          ((newAllocs.map (fun a => a.line_id)).count pl.line_id) = 1)
      ∧ (∀ a ∈ newAllocs,
          a.line_id ∈ (eligible_lines c8x_st ["WO-0010"]).map (fun l => l.line_id)) :=
  (C8_amended_create_batch c8x_st "B2" ["WO-0010"] "U" false
    (by decide) (by decide)).2 (by decide)

-- ── C7: list-level round-trip machinery ──

/-- Sum of allocated quantities of merged rows. -/
def sumQty (l : List ARow) : Int :=
  sumBy l (fun r => r.allocated_qty)

def zeroQty (r : ARow) : ARow :=
  { r with allocated_qty := 0 }

theorem negRevAux_cons_mo (x : ARow) (l : List ARow) (tr : Int) (h0 : ¬ tr ≤ 0)
    (hmo : (x.allocation_status == "ManualOverride") = true) :
    negRevAux tr (x :: l) = (x :: (negRevAux tr l).1, (negRevAux tr l).2) := by
  rcases hl : negRevAux tr l with ⟨l1, t1⟩
  simp only [negRevAux]
  rw [if_neg h0, if_pos hmo, hl]

theorem negRevAux_cons_red (x : ARow) (l : List ARow) (tr : Int) (h0 : ¬ tr ≤ 0)
    (hmo : ¬ (x.allocation_status == "ManualOverride") = true) :
    negRevAux tr (x :: l)
      = ({ x with allocated_qty := x.allocated_qty - min x.allocated_qty tr }
           :: (negRevAux (tr - min x.allocated_qty tr) l).1,
         (negRevAux (tr - min x.allocated_qty tr) l).2) := by
  rcases hl : negRevAux (tr - min x.allocated_qty tr) l with ⟨l1, t1⟩
  simp only [negRevAux]
  rw [if_neg h0, if_neg hmo]
  rw [hl]

theorem negRevAux_append (u v : List ARow) (tr : Int) :
    negRevAux tr (u ++ v)
      = ((negRevAux tr u).1 ++ (negRevAux (negRevAux tr u).2 v).1,
         (negRevAux (negRevAux tr u).2 v).2) := by
  induction u generalizing tr with
  | nil => simp [negRevAux]
  | cons x xs ih =>
    rw [List.cons_append]
    by_cases h0 : tr ≤ 0
    · rw [negRevAux_break (x :: (xs ++ v)) tr h0, negRevAux_break (x :: xs) tr h0]
      dsimp only
      rw [negRevAux_break v tr h0]
      simp
    · by_cases hmo : x.allocation_status == "ManualOverride"
      · rw [negRevAux_cons_mo x (xs ++ v) tr h0 hmo, negRevAux_cons_mo x xs tr h0 hmo]
        dsimp only
        rw [ih tr]
        simp
      · rw [negRevAux_cons_red x (xs ++ v) tr h0 hmo, negRevAux_cons_red x xs tr h0 hmo]
        dsimp only
        rw [ih (tr - min x.allocated_qty tr)]
        simp

theorem negRevAux_snd (l : List ARow) (tr : Int) :
    (negRevAux tr l).2 = tr - (sumQty l - sumQty (negRevAux tr l).1) := by
  induction l generalizing tr with
  | nil => simp [negRevAux, sumQty, sumBy]
  | cons x xs ih =>
    by_cases h0 : tr ≤ 0
    · rw [negRevAux_break (x :: xs) tr h0]
      simp
    · by_cases hmo : x.allocation_status == "ManualOverride"
      · rw [negRevAux_cons_mo x xs tr h0 hmo]
        dsimp only
        rw [ih tr]
        simp only [sumQty, sumBy, List.map_cons, List.sum_cons]
        ring_nf
      · rw [negRevAux_cons_red x xs tr h0 hmo]
        dsimp only
        rw [ih (tr - min x.allocated_qty tr)]
        simp only [sumQty, sumBy, List.map_cons, List.sum_cons]
        ring_nf

theorem posLoop_sum (l : List ARow) (d : Int) (hd : 0 ≤ d)
    (hout : ∀ r ∈ l, 0 ≤ r.outstanding) :
    sumQty (posLoop d l) = sumQty l + min d (sumBy l (fun r => r.outstanding)) := by
  induction l generalizing d with
  | nil =>
    simp [posLoop, sumQty, sumBy]
    omega
  | cons r rest ih =>
    have houtr : 0 ≤ r.outstanding := hout r (List.mem_cons_self r rest)
    have houtrest : ∀ x ∈ rest, 0 ≤ x.outstanding :=
      fun x hx => hout x (List.mem_cons_of_mem r hx)
    have hsum_rest : 0 ≤ sumBy rest (fun x => x.outstanding) :=
      sumBy_nonneg _ _ houtrest
    unfold posLoop
    by_cases h0 : d ≤ 0
    · rw [if_pos h0]
      have hd0 : d = 0 := by omega
      subst hd0
      have hmin : min 0 (sumBy (r :: rest) (fun x => x.outstanding)) = 0 := by
        have : 0 ≤ sumBy (r :: rest) (fun x => x.outstanding) :=
          sumBy_nonneg _ _ hout
        omega
      omega
    · rw [if_neg h0]
      dsimp only
      simp only [sumQty, sumBy, List.map_cons, List.sum_cons] at ih ⊢
      rw [ih _ (by omega) houtrest]
      simp only [sumBy] at hsum_rest ⊢
      omega

theorem negRevAux_zeros (l : List ARow) (tr : Int)
    (hz : ∀ x ∈ l, x.allocated_qty = 0) :
    negRevAux tr l = (l, tr) := by
  induction l generalizing tr with
  | nil => rfl
  | cons x xs ih =>
    have hx : x.allocated_qty = 0 := hz x (List.mem_cons_self x xs)
    have hxs := fun y hy => hz y (List.mem_cons_of_mem x hy)
    by_cases h0 : tr ≤ 0
    · rw [negRevAux_break (x :: xs) tr h0]
    · by_cases hmo : x.allocation_status == "ManualOverride"
      · rw [negRevAux_cons_mo x xs tr h0 hmo, ih tr hxs]
      · rw [negRevAux_cons_red x xs tr h0 hmo]
        have hred : min x.allocated_qty tr = 0 := by
          rw [hx]; omega
        rw [hred, ih (tr - 0) hxs]
        have h1 : ({ x with allocated_qty := x.allocated_qty - 0 } : ARow) = x := by
          have : x.allocated_qty - 0 = x.allocated_qty := by omega
          rw [this]
        rw [h1]
        have h2 : tr - 0 = tr := by omega
        rw [h2]

theorem negRevAux_drain (l : List ARow) (tr : Int)
    (hq : ∀ x ∈ l, 0 ≤ x.allocated_qty)
    (hmo : ∀ x ∈ l, ¬ (x.allocation_status == "ManualOverride") = true)
    (hsum : sumQty l ≤ tr) (htr : 0 ≤ tr) :
    negRevAux tr l = (l.map zeroQty, tr - sumQty l) := by
  induction l generalizing tr with
  | nil => simp [negRevAux, sumQty, sumBy]
  | cons x xs ih =>
    have hx : 0 ≤ x.allocated_qty := hq x (List.mem_cons_self x xs)
    have hxsq : 0 ≤ sumQty xs := by
      unfold sumQty
      exact sumBy_nonneg _ _ (fun y hy => hq y (List.mem_cons_of_mem x hy))
    have hsum_cons : sumQty (x :: xs) = x.allocated_qty + sumQty xs := by
      simp [sumQty, sumBy]
    by_cases h0 : tr ≤ 0
    · rw [negRevAux_break (x :: xs) tr h0]
      have htr0 : tr = 0 := by omega
      have hx0 : x.allocated_qty = 0 := by omega
      have hxs0 : ∀ y ∈ xs, y.allocated_qty = 0 := by
        intro y hy
        by_contra hne
        have hpos : 0 < y.allocated_qty := by
          have := hq y (List.mem_cons_of_mem x hy)
          omega
        have hpos2 : 0 < sumQty xs := sumBy_pos xs (fun r => r.allocated_qty)
          (fun r hr => hq r (List.mem_cons_of_mem x hr)) ⟨y, hy, hpos⟩
        omega
      have hmap : xs.map zeroQty = xs := by
        apply (List.map_congr_left ?_).trans (List.map_id xs)
        intro y hy
        show zeroQty y = y
        unfold zeroQty
        rw [← hxs0 y hy]
      have hmapx : (x :: xs).map zeroQty = x :: xs := by
        rw [List.map_cons, hmap]
        unfold zeroQty
        rw [← hx0]
      rw [hmapx]
      have heq : tr - sumQty (x :: xs) = tr := by omega
      rw [heq]
    · rw [negRevAux_cons_red x xs tr h0 (hmo x (List.mem_cons_self x xs))]
      have hred : min x.allocated_qty tr = x.allocated_qty := by omega
      rw [hred]
      rw [ih (tr - x.allocated_qty)
        (fun y hy => hq y (List.mem_cons_of_mem x hy))
        (fun y hy => hmo y (List.mem_cons_of_mem x hy))
        (by omega) (by omega)]
      have h1 : ({ x with allocated_qty := x.allocated_qty - x.allocated_qty } : ARow)
          = zeroQty x := by
        unfold zeroQty
        have : x.allocated_qty - x.allocated_qty = 0 := by omega
        rw [this]
      rw [h1]
      have h2 : tr - x.allocated_qty - sumQty xs = tr - sumQty (x :: xs) := by omega
      rw [h2, List.map_cons]

theorem negLoop_cons (tr : Int) (x : ARow) (l : List ARow) :
    negLoop tr (x :: l)
      = ((negRevAux (negRevAux tr l.reverse).2 [x]).1).reverse ++ negLoop tr l := by
  unfold negLoop
  rw [List.reverse_cons, negRevAux_append]
  dsimp only
  rw [List.reverse_append]

theorem sumQty_reverse (l : List ARow) : sumQty l.reverse = sumQty l := by
  simp only [sumQty, sumBy, List.map_reverse]
  exact List.sum_reverse _

theorem sumQty_eq_of_map_eq {l1 l2 : List ARow}
    (h : l1.map (fun r => r.allocated_qty) = l2.map (fun r => r.allocated_qty)) :
    sumQty l1 = sumQty l2 := by
  unfold sumQty sumBy
  rw [h]

theorem posLoop_cons_pos (r : ARow) (rest : List ARow) (d : Int) (hd : 0 < d) :
    posLoop d (r :: rest)
      = { r with allocated_qty := r.allocated_qty + min r.outstanding d }
          :: posLoop (d - min r.outstanding d) rest := by
  simp only [posLoop]
  rw [if_neg (not_le.mpr hd)]

theorem zero_map_eq (l1 l2 : List ARow) (f g : ARow → Int) (hlen : l1.length = l2.length)
    (h1 : ∀ x ∈ l1, f x = 0) (h2 : ∀ x ∈ l2, g x = 0) : l1.map f = l2.map g := by
  apply List.ext_getElem (by simpa)
  intro i hi1 hi2
  rw [List.getElem_map, List.getElem_map]
  rw [h1 _ (List.getElem_mem _), h2 _ (List.getElem_mem _)]

/-- Core list-level round trip: a positive fill of `d` followed by a
reduction of `d` restores every row's quantity, provided no row is
`ManualOverride`, quantities and outstandings are non-negative, the
delta fits into the total outstanding, and the list is front-loaded
(every row before a row with positive quantity has zero outstanding). -/
theorem negLoop_posLoop_roundtrip (L : List ARow) (d : Int) (hd : 0 < d) :
    (∀ r ∈ L, 0 ≤ r.allocated_qty) →
    (∀ r ∈ L, 0 ≤ r.outstanding) →
    (∀ r ∈ L, ¬ (r.allocation_status == "ManualOverride") = true) →
    List.Pairwise (fun a b : ARow => 0 < b.allocated_qty → a.outstanding = 0) L →
    d ≤ sumBy L (fun r => r.outstanding) →
    (negLoop d (posLoop d L)).map (fun r => r.allocated_qty)
      = L.map (fun r => r.allocated_qty) := by
  induction L with
  | nil =>
    intro _ _ _ _ _
    simp [posLoop, negLoop, negRevAux]
  | cons r rest ih =>
    intro hq hout hmo hfl hcap
    have hqr : 0 ≤ r.allocated_qty := hq r (List.mem_cons_self r rest)
    have houtr : 0 ≤ r.outstanding := hout r (List.mem_cons_self r rest)
    have hqrest : ∀ x ∈ rest, 0 ≤ x.allocated_qty :=
      fun x hx => hq x (List.mem_cons_of_mem r hx)
    have houtrest : ∀ x ∈ rest, 0 ≤ x.outstanding :=
      fun x hx => hout x (List.mem_cons_of_mem r hx)
    have hmorest : ∀ x ∈ rest, ¬ (x.allocation_status == "ManualOverride") = true :=
      fun x hx => hmo x (List.mem_cons_of_mem r hx)
    obtain ⟨hhead, hfltail⟩ := List.pairwise_cons.mp hfl
    have hsc : sumBy (r :: rest) (fun x => x.outstanding)
        = r.outstanding + sumBy rest (fun x => x.outstanding) := by
      simp [sumBy]
    have hsout_rest : 0 ≤ sumBy rest (fun x => x.outstanding) :=
      sumBy_nonneg _ _ houtrest
    rw [posLoop_cons_pos r rest d hd, negLoop_cons]
    by_cases hro : r.outstanding = 0
    · -- head has no outstanding: the fill gives it nothing and the
      -- reduction drains exactly the amount the tail absorbed.
      have hg : min r.outstanding d = 0 := by omega
      have hdd : d - min r.outstanding d = d := by omega
      rw [hg, hdd] at *
      have hcaprest : d ≤ sumBy rest (fun x => x.outstanding) := by omega
      have hIH := ih hqrest houtrest hmorest hfltail hcaprest
      have h1 : (negRevAux d (posLoop d rest).reverse).1
          = (negLoop d (posLoop d rest)).reverse := by
        unfold negLoop
        rw [List.reverse_reverse]
      have h2 : sumQty (negLoop d (posLoop d rest)) = sumQty rest :=
        sumQty_eq_of_map_eq hIH
      have h3 : sumQty (posLoop d rest)
          = sumQty rest + min d (sumBy rest (fun x => x.outstanding)) :=
        posLoop_sum rest d (le_of_lt hd) houtrest
      have h4 : min d (sumBy rest (fun x => x.outstanding)) = d := by omega
      have htr0 : (negRevAux d (posLoop d rest).reverse).2 = 0 := by
        rw [negRevAux_snd, h1, sumQty_reverse, sumQty_reverse, h2, h3, h4]
        ring
      rw [htr0, negRevAux_break _ 0 (by omega)]
      dsimp only
      rw [List.map_append, hIH]
      simp
    · -- head has outstanding capacity: the tail was all zeros, the fill
      -- pushes the spill into the tail, and the reverse walk drains the
      -- tail back to zero before taking the head's gain away again.
      have hropos : 0 < r.outstanding := by omega
      have hzrest : ∀ b ∈ rest, b.allocated_qty = 0 := by
        intro b hb
        have h2 := hq b (List.mem_cons_of_mem r hb)
        by_contra hne
        have hpos : 0 < b.allocated_qty := by omega
        have := hhead b hb hpos
        omega
      have hgpos : 0 < min r.outstanding d := by omega
      have hd' : 0 ≤ d - min r.outstanding d := by omega
      have hqP : ∀ y ∈ posLoop (d - min r.outstanding d) rest, 0 ≤ y.allocated_qty := by
        intro y hy
        obtain ⟨a, ha, hle⟩ :=
          forall₂_exists_left (posLoop_qty_mono rest _ hd' houtrest) y hy
        have := hq a (List.mem_cons_of_mem r ha)
        omega
      have hmoP : ∀ y ∈ posLoop (d - min r.outstanding d) rest,
          ¬ (y.allocation_status == "ManualOverride") = true := by
        intro y hy
        obtain ⟨a, ha, hsh⟩ := forall₂_exists_left (posLoop_shape rest _) y hy
        have hst : y.allocation_status = a.allocation_status := hsh.2.1
        rw [hst]
        exact hmo a (List.mem_cons_of_mem r ha)
      have hzsum : sumQty rest = 0 := by
        unfold sumQty sumBy
        apply List.sum_eq_zero
        intro x hx
        obtain ⟨y, hy, rfl⟩ := List.mem_map.mp hx
        exact hzrest y hy
      have hleP : d - min r.outstanding d ≤ sumBy rest (fun x => x.outstanding) := by
        omega
      have hsumP : sumQty (posLoop (d - min r.outstanding d) rest)
          = d - min r.outstanding d := by
        rw [posLoop_sum rest _ hd' houtrest, hzsum]
        omega
      have hdrain : negRevAux d (posLoop (d - min r.outstanding d) rest).reverse
          = ((posLoop (d - min r.outstanding d) rest).reverse.map zeroQty,
             d - sumQty (posLoop (d - min r.outstanding d) rest).reverse) := by
        apply negRevAux_drain
        · intro y hy
          exact hqP y (List.mem_reverse.mp hy)
        · intro y hy
          exact hmoP y (List.mem_reverse.mp hy)
        · rw [sumQty_reverse]
          omega
        · omega
      have htr' : d - sumQty (posLoop (d - min r.outstanding d) rest).reverse
          = min r.outstanding d := by
        rw [sumQty_reverse, hsumP]
        ring
      rw [hdrain]
      dsimp only
      rw [htr']
      rw [negRevAux_cons_red { r with allocated_qty := r.allocated_qty + min r.outstanding d } [] (min r.outstanding d) (by omega) (hmo r (List.mem_cons_self r rest))]
      dsimp only
      simp only [negRevAux]
      have hneg : negLoop d (posLoop (d - min r.outstanding d) rest)
          = (posLoop (d - min r.outstanding d) rest).map zeroQty := by
        unfold negLoop
        rw [hdrain]
        dsimp only
        rw [List.map_reverse, List.reverse_reverse]
      rw [hneg]
      simp only [List.reverse_cons, List.reverse_nil, List.nil_append, List.singleton_append,
        List.map_cons, List.map_map, List.cons.injEq]
      refine ⟨by omega, ?_⟩
      apply zero_map_eq _ _ _ _ (posLoop_length _ _)
      · intro x hx
        show (zeroQty x).allocated_qty = 0
        unfold zeroQty
        rfl
      · exact hzrest

-- ── C7: engine-level glue ──

theorem orderedInsert_congr {α : Type} (r1 r2 : α → α → Prop)
    [DecidableRel r1] [DecidableRel r2] (h : ∀ i j, r1 i j ↔ r2 i j)
    (a : α) (l : List α) :
    List.orderedInsert r1 a l = List.orderedInsert r2 a l := by
  induction l with
  | nil => rfl
  | cons x xs ih =>
    simp only [List.orderedInsert]
    by_cases hr : r1 a x
    · rw [if_pos hr, if_pos ((h a x).mp hr)]
    · rw [if_neg hr, if_neg (fun hh => hr ((h a x).mpr hh)), ih]

theorem insertionSort_congr {α : Type} (r1 r2 : α → α → Prop)
    [DecidableRel r1] [DecidableRel r2] (h : ∀ i j, r1 i j ↔ r2 i j)
    (l : List α) :
    List.insertionSort r1 l = List.insertionSort r2 l := by
  induction l with
  | nil => rfl
  | cons x xs ih =>
    simp only [List.insertionSort]
    rw [ih, orderedInsert_congr r1 r2 h]

/-- In a row list with duplicate-free `allocation_id`s, `find?` on a
member's id returns exactly that member. -/
theorem find?_arow_eq_some (l : List ARow) (x : ARow)
    (hnodup : (l.map (fun r => r.allocation_id)).Nodup) (hx : x ∈ l) :
    l.find? (fun r => r.allocation_id == x.allocation_id) = some x := by
  induction l with
  | nil => cases hx
  | cons a t ih =>
    rcases List.mem_cons.mp hx with rfl | hxt
    · rw [List.find?_cons_of_pos _ (by simp)]
    · by_cases ha : a.allocation_id == x.allocation_id
      · exfalso
        have hxid : x.allocation_id ∈ t.map (fun r => r.allocation_id) :=
          List.mem_map.mpr ⟨x, hxt, rfl⟩
        apply (List.nodup_cons.mp hnodup).1
        show a.allocation_id ∈ t.map (fun r => r.allocation_id)
        rw [show a.allocation_id = x.allocation_id from by simpa using ha]
        exact hxid
      · rw [List.find?_cons_of_neg t
          (show ¬ ((fun r : ARow => r.allocation_id == x.allocation_id) a) = true from ha)]
        exact ih (List.nodup_cons.mp hnodup).2 hxt

theorem forall₂_getD {R : ARow → ARow → Prop} {l1 l2 : List ARow}
    (h : List.Forall₂ R l1 l2) (j : Nat) (hj : j < l1.length) :
    R (l1.getD j ARow.dflt) (l2.getD j ARow.dflt) := by
  induction h generalizing j with
  | nil => simp at hj
  | cons hab htail ih =>
    cases j with
    | zero => simpa using hab
    | succ k =>
      simp only [List.getD_cons_succ]
      exact ih k (by simpa using hj)

theorem forall₂_map_eq {γ : Type} {R : ARow → ARow → Prop} {l1 l2 : List ARow}
    (h : List.Forall₂ R l1 l2) (f : ARow → γ) (hf : ∀ a b, R a b → f b = f a) :
    l2.map f = l1.map f := by
  induction h with
  | nil => rfl
  | cons hab htail ih =>
    simp only [List.map_cons, ih]
    rw [hf _ _ hab]

/-- The per-row write-back function (`engine_writeback` is its map). -/
def wbF (updated : List ARow) (a : Allocation) : Allocation :=
  match updated.find? (fun r => r.allocation_id == a.allocation_id) with
  | some r => { a with allocated_qty := r.allocated_qty }
  | none => a

theorem engine_writeback_eq (allocs : List Allocation) (updated : List ARow) :
    engine_writeback allocs updated = allocs.map (wbF updated) := rfl

theorem wbF_fields (u : List ARow) (a : Allocation) :
    (wbF u a).allocation_id = a.allocation_id
    ∧ (wbF u a).batch_line_id = a.batch_line_id
    ∧ (wbF u a).line_id = a.line_id
    ∧ (wbF u a).wo_id = a.wo_id
    ∧ (wbF u a).allocation_status = a.allocation_status := by
  unfold wbF
  split
  · exact ⟨rfl, rfl, rfl, rfl, rfl⟩
  · exact ⟨rfl, rfl, rfl, rfl, rfl⟩

/-- `wbF` only ever rewrites the quantity. -/
theorem wbF_eq_update (u : List ARow) (a : Allocation) :
    wbF u a = { a with allocated_qty := (wbF u a).allocated_qty } := by
  unfold wbF
  split
  · rfl
  · rfl

theorem filter_map_eq {α : Type} (l : List α) (f : α → α) (p : α → Bool)
    (hp : ∀ x, p (f x) = p x) :
    (l.map f).filter p = (l.filter p).map f := by
  induction l with
  | nil => rfl
  | cons x t ih =>
    rw [List.map_cons, List.filter_cons, List.filter_cons, hp]
    by_cases hx : p x
    · rw [if_pos hx, if_pos hx, List.map_cons, ih]
    · rw [if_neg hx, if_neg hx, ih]

theorem engine_manual_id (st : State) (blid : String) (nr orr : Int)
    (hm : (st.allocation_mode == "Manual Only") = true) :
    svc_run_allocation_engine st blid nr orr = st := by
  unfold svc_run_allocation_engine
  rw [if_pos hm]

theorem engine_empty_id (st : State) (blid : String) (nr orr : Int)
    (he : (engine_rows st blid).isEmpty = true) :
    svc_run_allocation_engine st blid nr orr = st := by
  unfold svc_run_allocation_engine
  by_cases hm : st.allocation_mode == "Manual Only"
  · rw [if_pos hm]
  · rw [if_neg hm]
    dsimp only
    by_cases hz : nr - orr == 0
    · rw [if_pos hz]
    · rw [if_neg hz]
      rw [if_pos he]

theorem engine_allocations_main (st : State) (blid : String) (nr orr : Int)
    (hm : ¬ (st.allocation_mode == "Manual Only") = true)
    (hz : ¬ (nr - orr == 0) = true)
    (he : ¬ (engine_rows st blid).isEmpty = true) :
    (svc_run_allocation_engine st blid nr orr).allocations
      = engine_writeback st.allocations
          (if nr - orr > 0 then
            posLoop (nr - orr) (engine_sorted st.allocation_mode (engine_rows st blid))
           else
            negLoop (-(nr - orr)) (engine_sorted st.allocation_mode (engine_rows st blid))) := by
  unfold svc_run_allocation_engine
  rw [if_neg hm]
  dsimp only
  rw [if_neg hz]
  rw [if_neg he]

theorem find?_required_map (l : List WOPartLine) (h : WOPartLine → WOPartLine)
    (hline : ∀ pl, (h pl).line_id = pl.line_id)
    (hreq : ∀ pl, (h pl).required_qty = pl.required_qty) (lid : String) :
    ((l.map h).find? (fun x => x.line_id == lid)).map (fun x => x.required_qty)
      = (l.find? (fun x => x.line_id == lid)).map (fun x => x.required_qty) := by
  induction l with
  | nil => rfl
  | cons p t ih =>
    by_cases hp : (p.line_id == lid) = true
    · rw [List.map_cons,
        List.find?_cons_of_pos (t.map h)
          (show ((fun x : WOPartLine => x.line_id == lid) (h p)) = true from by
            show ((h p).line_id == lid) = true
            rw [hline p]; exact hp),
        List.find?_cons_of_pos t hp]
      simp [hreq]
    · rw [List.map_cons,
        List.find?_cons_of_neg (t.map h)
          (show ¬ ((fun x : WOPartLine => x.line_id == lid) (h p)) = true from by
            show ¬ ((h p).line_id == lid) = true
            rw [hline p]; exact hp),
        List.find?_cons_of_neg t hp]
      exact ih

theorem engine_lookup_required (st : State) (blid : String) (nr orr : Int)
    (lid : String) :
    lookup_required (svc_run_allocation_engine st blid nr orr) lid
      = lookup_required st lid := by
  unfold svc_run_allocation_engine
  by_cases hm : st.allocation_mode == "Manual Only"
  · rw [if_pos hm]
  · rw [if_neg hm]
    dsimp only
    by_cases hz : nr - orr == 0
    · rw [if_pos hz]
    · rw [if_neg hz]
      by_cases he : (engine_rows st blid).isEmpty
      · rw [if_pos he]
      · rw [if_neg he]
        unfold lookup_required
        dsimp only
        rw [find?_required_map]
        · intro pl
          dsimp only
          split
          · rfl
          · rfl
        · intro pl
          dsimp only
          split
          · rfl
          · rfl

/-- The reduction walk's output quantities (and leftover) depend only on
the input rows' quantity/status columns. -/
theorem negRevAux_congr (l1 : List ARow) : ∀ (l2 : List ARow) (tr : Int),
    l1.map (fun r => (r.allocated_qty, r.allocation_status))
      = l2.map (fun r => (r.allocated_qty, r.allocation_status)) →
    (negRevAux tr l1).1.map (fun r => r.allocated_qty)
        = (negRevAux tr l2).1.map (fun r => r.allocated_qty)
      ∧ (negRevAux tr l1).2 = (negRevAux tr l2).2 := by
  induction l1 with
  | nil =>
    intro l2 tr h
    cases l2 with
    | nil => exact ⟨rfl, rfl⟩
    | cons b t => simp at h
  | cons x xs ih =>
    intro l2 tr h
    cases l2 with
    | nil => simp at h
    | cons y ys =>
      simp only [List.map_cons, List.cons.injEq] at h
      obtain ⟨hhead, htail⟩ := h
      have hq : x.allocated_qty = y.allocated_qty := by
        have := congrArg Prod.fst hhead
        simpa using this
      have hs : x.allocation_status = y.allocation_status := by
        have := congrArg Prod.snd hhead
        simpa using this
      have hqtail : xs.map (fun r => r.allocated_qty) = ys.map (fun r => r.allocated_qty) := by
        have := congrArg (List.map Prod.fst) htail
        simpa [List.map_map, Function.comp] using this
      by_cases h0 : tr ≤ 0
      · rw [negRevAux_break _ _ h0, negRevAux_break _ _ h0]
        refine ⟨?_, rfl⟩
        simp only [List.map_cons]
        rw [hq, hqtail]
      · by_cases hmo : x.allocation_status == "ManualOverride"
        · have hmo' : (y.allocation_status == "ManualOverride") = true := by
            rw [← hs]; exact hmo
          rw [negRevAux_cons_mo x xs tr h0 hmo, negRevAux_cons_mo y ys tr h0 hmo']
          obtain ⟨ih1, ih2⟩ := ih ys tr htail
          exact ⟨by simp only [List.map_cons]; rw [hq, ih1], ih2⟩
        · have hmo' : ¬ (y.allocation_status == "ManualOverride") = true := by
            rw [← hs]; exact hmo
          rw [negRevAux_cons_red x xs tr h0 hmo, negRevAux_cons_red y ys tr h0 hmo']
          obtain ⟨ih1, ih2⟩ := ih ys (tr - min x.allocated_qty tr) htail
          rw [← hq]
          exact ⟨by simp only [List.map_cons]; rw [ih1], ih2⟩

theorem negLoop_congr (l1 l2 : List ARow) (tr : Int)
    (h : l1.map (fun r => (r.allocated_qty, r.allocation_status))
      = l2.map (fun r => (r.allocated_qty, r.allocation_status))) :
    (negLoop tr l1).map (fun r => r.allocated_qty)
      = (negLoop tr l2).map (fun r => r.allocated_qty) := by
  unfold negLoop
  have hrev : l1.reverse.map (fun r => (r.allocated_qty, r.allocation_status))
      = l2.reverse.map (fun r => (r.allocated_qty, r.allocation_status)) := by
    rw [List.map_reverse, List.map_reverse, h]
  obtain ⟨h1, _⟩ := negRevAux_congr l1.reverse l2.reverse tr hrev
  rw [List.map_reverse, List.map_reverse, h1]

theorem lookup_wo_congr (st st1 : State) (hwo : st1.work_orders = st.work_orders)
    (w : String) : lookup_wo st1 w = lookup_wo st w := by
  unfold lookup_wo
  rw [hwo]

/-- Re-merging an allocation after the write-back only moves its quantity
(and the derived outstanding); every sort-relevant column is as in the
original merge. -/
theorem toARow_wbF (st st1 : State) (u : List ARow) (a : Allocation)
    (hwo : st1.work_orders = st.work_orders)
    (hreq : ∀ lid, lookup_required st1 lid = lookup_required st lid) :
    toARow st1 (wbF u a)
      = { toARow st a with
            allocated_qty := (wbF u a).allocated_qty,
            outstanding :=
              max 0 (lookup_required st a.line_id - (wbF u a).allocated_qty) } := by
  obtain ⟨hid, hbl, hlin, hwoid, hst⟩ := wbF_fields u a
  unfold toARow
  dsimp only
  simp only [hid, hlin, hwoid, hst, hreq, lookup_wo_congr st st1 hwo]

theorem getD_map_eq {α : Type} (l : List α) (f : α → ARow) (i : Nat) (d : α)
    (hi : i < l.length) :
    (l.map f).getD i ARow.dflt = f (l.getD i d) := by
  rw [List.getD_eq_getElem _ _ (show i < (l.map f).length by simpa using hi),
      List.getElem_map, List.getD_eq_getElem _ _ hi]

def dfltA : Allocation := ⟨"", "", "", "", 0, ""⟩

theorem toARow_id (st : State) (a : Allocation) :
    (toARow st a).allocation_id = a.allocation_id := rfl

theorem toARow_qty (st : State) (a : Allocation) :
    (toARow st a).allocated_qty = a.allocated_qty := rfl

theorem toARow_status (st : State) (a : Allocation) :
    (toARow st a).allocation_status = a.allocation_status := rfl

theorem wbF_found (u : List ARow) (a : Allocation) (row : ARow)
    (hfind : u.find? (fun r => r.allocation_id == a.allocation_id) = some row) :
    wbF u a = { a with allocated_qty := row.allocated_qty } := by
  unfold wbF
  rw [hfind]

theorem wbF_none (u : List ARow) (a : Allocation)
    (hfind : u.find? (fun r => r.allocation_id == a.allocation_id) = none) :
    wbF u a = a := by
  unfold wbF
  rw [hfind]

theorem getD_map_eq' {α β : Type} (l : List α) (f : α → β) (j : Nat)
    (da : α) (db : β) (hj : j < l.length) :
    (l.map f).getD j db = f (l.getD j da) := by
  rw [List.getD_eq_getElem _ _ (show j < (l.map f).length by simpa using hj),
      List.getElem_map, List.getD_eq_getElem _ _ hj]

theorem engine_sort_idx_length (mode : String) (rows : List ARow) :
    (engine_sort_idx mode rows).length = rows.length := by
  unfold engine_sort_idx
  rw [(List.perm_insertionSort _ _).length_eq, List.length_range]

theorem engine_sort_idx_lt (mode : String) (rows : List ARow) (j : Nat)
    (hj : j < rows.length) :
    (engine_sort_idx mode rows).getD j 0 < rows.length := by
  have hperm : (engine_sort_idx mode rows).Perm (List.range rows.length) :=
    List.perm_insertionSort _ _
  have hlen : (engine_sort_idx mode rows).length = rows.length :=
    engine_sort_idx_length mode rows
  have hmem : (engine_sort_idx mode rows).getD j 0 ∈ engine_sort_idx mode rows := by
    rw [List.getD_eq_getElem _ _ (by omega)]
    exact List.getElem_mem _
  exact List.mem_range.mp (hperm.mem_iff.mp hmem)

theorem engine_key_congr (mode : String) (r1 r2 : ARow)
    (hp : r2.prank = r1.prank) (hc : r2.created_date = r1.created_date) :
    engine_key mode r2 = engine_key mode r1 := by
  unfold engine_key
  rw [hp, hc]

/-- C7 (amended): a positive-delta engine run followed by the exact
negative run restores the entire allocations table, under the amended
hypotheses: duplicate-free allocation ids, non-negative quantities and
no `ManualOverride` on the line, the delta fitting into the line's total
outstanding, and the sorted merged frame being front-loaded (no row with
remaining outstanding precedes a row carrying positive quantity). -/
theorem C7_amended_engine_roundtrip (st : State) (blid : String) (r d : Int)
    (hd : 0 < d)
    (hids : (st.allocations.map (fun a => a.allocation_id)).Nodup)
    (hq : ∀ a ∈ st.allocations, a.batch_line_id = blid → 0 ≤ a.allocated_qty)
    (hmo : ∀ a ∈ st.allocations, a.batch_line_id = blid →
      a.allocation_status ≠ "ManualOverride")
    (hfl : List.Pairwise (fun a b : ARow => 0 < b.allocated_qty → a.outstanding = 0)
      (engine_sorted st.allocation_mode (engine_rows st blid)))
    (hcap : d ≤ sumBy (engine_sorted st.allocation_mode (engine_rows st blid))
      (fun row => row.outstanding)) :
    (svc_run_allocation_engine (svc_run_allocation_engine st blid (r + d) r)
        blid r (r + d)).allocations = st.allocations := by
  by_cases hm : (st.allocation_mode == "Manual Only") = true
  · rw [engine_manual_id st blid (r + d) r hm, engine_manual_id st blid r (r + d) hm]
  by_cases he : (engine_rows st blid).isEmpty = true
  · rw [engine_empty_id st blid (r + d) r he, engine_empty_id st blid r (r + d) he]
  -- main branch of the first run
  have hz1 : ¬ (r + d - r == 0) = true := by
    simp only [beq_iff_eq]
    omega
  have hal1 : (svc_run_allocation_engine st blid (r + d) r).allocations
      = st.allocations.map (wbF (posLoop d
          (engine_sorted st.allocation_mode (engine_rows st blid)))) := by
    rw [engine_allocations_main st blid (r + d) r hm hz1 he,
      show r + d - r = d from by ring, if_pos (by omega : d > 0),
      engine_writeback_eq]
  have hwo1 : (svc_run_allocation_engine st blid (r + d) r).work_orders
      = st.work_orders := (engine_other_tables st blid (r + d) r).2.2.2.1
  have hmode1 : (svc_run_allocation_engine st blid (r + d) r).allocation_mode
      = st.allocation_mode := (engine_other_tables st blid (r + d) r).2.2.2.2
  have hreq1 : ∀ lid, lookup_required (svc_run_allocation_engine st blid (r + d) r) lid
      = lookup_required st lid := engine_lookup_required st blid (r + d) r
  have hfilter2 : (svc_run_allocation_engine st blid (r + d) r).allocations.filter
        (fun a => a.batch_line_id == blid)
      = (st.allocations.filter (fun a => a.batch_line_id == blid)).map
          (wbF (posLoop d (engine_sorted st.allocation_mode (engine_rows st blid)))) := by
    rw [hal1]
    exact filter_map_eq _ _ _ (fun x => by rw [(wbF_fields _ x).2.1])
  have hrows2 : engine_rows (svc_run_allocation_engine st blid (r + d) r) blid
      = (st.allocations.filter (fun a => a.batch_line_id == blid)).map
          (fun a => toARow (svc_run_allocation_engine st blid (r + d) r)
            (wbF (posLoop d (engine_sorted st.allocation_mode (engine_rows st blid))) a)) := by
    unfold engine_rows
    rw [hfilter2, List.map_map]
    rfl
  have hrows1eq : engine_rows st blid
      = (st.allocations.filter (fun a => a.batch_line_id == blid)).map (toARow st) := rfl
  have hga : ∀ a : Allocation,
      toARow (svc_run_allocation_engine st blid (r + d) r)
        (wbF (posLoop d (engine_sorted st.allocation_mode (engine_rows st blid))) a)
      = { toARow st a with
            allocated_qty := (wbF (posLoop d (engine_sorted st.allocation_mode
              (engine_rows st blid))) a).allocated_qty,
            outstanding := max 0 (lookup_required st a.line_id
              - (wbF (posLoop d (engine_sorted st.allocation_mode
                  (engine_rows st blid))) a).allocated_qty) } :=
    fun a => toARow_wbF st _ _ a hwo1 hreq1
  have hlen1 : (engine_rows st blid).length
      = (st.allocations.filter (fun a => a.batch_line_id == blid)).length := by
    rw [hrows1eq, List.length_map]
  have hlen2 : (engine_rows (svc_run_allocation_engine st blid (r + d) r) blid).length
      = (st.allocations.filter (fun a => a.batch_line_id == blid)).length := by
    rw [hrows2, List.length_map]
  have hkey : ∀ i, engine_key st.allocation_mode
        ((engine_rows (svc_run_allocation_engine st blid (r + d) r) blid).getD i ARow.dflt)
      = engine_key st.allocation_mode ((engine_rows st blid).getD i ARow.dflt) := by
    intro i
    by_cases hi : i < (st.allocations.filter (fun a => a.batch_line_id == blid)).length
    · rw [hrows2, hrows1eq, getD_map_eq _ _ i dfltA hi, getD_map_eq _ _ i dfltA hi,
        ← hrows1eq, hga]
      exact engine_key_congr _ _ _ rfl rfl
    · rw [List.getD_eq_default _ _ (by omega : (engine_rows
          (svc_run_allocation_engine st blid (r + d) r) blid).length ≤ i),
        List.getD_eq_default _ _ (by omega : (engine_rows st blid).length ≤ i)]
  have hidx : engine_sort_idx st.allocation_mode
        (engine_rows (svc_run_allocation_engine st blid (r + d) r) blid)
      = engine_sort_idx st.allocation_mode (engine_rows st blid) := by
    unfold engine_sort_idx
    rw [show (engine_rows (svc_run_allocation_engine st blid (r + d) r) blid).length
        = (engine_rows st blid).length from by rw [hlen2, hlen1]]
    exact insertionSort_congr _ _ (fun i j => by rw [hkey i, hkey j]) _
  -- duplicate-free ids across the merged, sorted and filled frames
  have hids_f : ((st.allocations.filter (fun a => a.batch_line_id == blid)).map
      (fun a => a.allocation_id)).Nodup :=
    List.Nodup.sublist (List.Sublist.map _ (List.filter_sublist _)) hids
  have hids_r1 : ((engine_rows st blid).map (fun x => x.allocation_id)).Nodup := by
    rw [hrows1eq, List.map_map]
    exact hids_f
  have hperm_s1 : (engine_sorted st.allocation_mode (engine_rows st blid)).Perm
      (engine_rows st blid) := engine_sorted_perm _ _
  have hids_s1 : ((engine_sorted st.allocation_mode (engine_rows st blid)).map
      (fun x => x.allocation_id)).Nodup :=
    ((hperm_s1.map (fun x => x.allocation_id)).symm).nodup hids_r1
  have hid_u1 : ((posLoop d (engine_sorted st.allocation_mode (engine_rows st blid))).map
        (fun x => x.allocation_id))
      = ((engine_sorted st.allocation_mode (engine_rows st blid)).map
        (fun x => x.allocation_id)) :=
    forall₂_map_eq (posLoop_shape _ d) _ (fun a b hab => hab.1)
  have hids_u1 : ((posLoop d (engine_sorted st.allocation_mode (engine_rows st blid))).map
      (fun x => x.allocation_id)).Nodup := by
    rw [hid_u1]
    exact hids_s1
  have hlen_u1 : (posLoop d (engine_sorted st.allocation_mode (engine_rows st blid))).length
      = (st.allocations.filter (fun a => a.batch_line_id == blid)).length := by
    rw [posLoop_length, engine_sorted_length, hlen1]
  have hlen_s2 : (engine_sorted st.allocation_mode
        (engine_rows (svc_run_allocation_engine st blid (r + d) r) blid)).length
      = (st.allocations.filter (fun a => a.batch_line_id == blid)).length := by
    rw [engine_sorted_length, hlen2]
  have hlen_idx : (engine_sort_idx st.allocation_mode (engine_rows st blid)).length
      = (engine_rows st blid).length := engine_sort_idx_length _ _
  have htrip_pt : ∀ j, j < (st.allocations.filter (fun a => a.batch_line_id == blid)).length →
      (((engine_sorted st.allocation_mode
          (engine_rows (svc_run_allocation_engine st blid (r + d) r) blid)).getD j ARow.dflt).allocation_id
        = ((posLoop d (engine_sorted st.allocation_mode (engine_rows st blid))).getD j ARow.dflt).allocation_id)
      ∧ (((engine_sorted st.allocation_mode
          (engine_rows (svc_run_allocation_engine st blid (r + d) r) blid)).getD j ARow.dflt).allocated_qty
        = ((posLoop d (engine_sorted st.allocation_mode (engine_rows st blid))).getD j ARow.dflt).allocated_qty)
      ∧ (((engine_sorted st.allocation_mode
          (engine_rows (svc_run_allocation_engine st blid (r + d) r) blid)).getD j ARow.dflt).allocation_status
        = ((posLoop d (engine_sorted st.allocation_mode (engine_rows st blid))).getD j ARow.dflt).allocation_status) := by
    intro j hj
    have hjr1 : j < (engine_rows st blid).length := by rw [hlen1]; exact hj
    have hjs1 : j < (engine_sorted st.allocation_mode (engine_rows st blid)).length := by
      rw [engine_sorted_length]; exact hjr1
    have hju1 : j < (posLoop d (engine_sorted st.allocation_mode (engine_rows st blid))).length := by
      rw [posLoop_length]; exact hjs1
    have hjidx : j < (engine_sort_idx st.allocation_mode (engine_rows st blid)).length := by
      rw [hlen_idx]; exact hjr1
    have hi_lt : (engine_sort_idx st.allocation_mode (engine_rows st blid)).getD j 0
        < (engine_rows st blid).length := engine_sort_idx_lt _ _ j hjr1
    have hi_f : (engine_sort_idx st.allocation_mode (engine_rows st blid)).getD j 0
        < (st.allocations.filter (fun a => a.batch_line_id == blid)).length := by
      rw [← hlen1]; exact hi_lt
    have hs2g : (engine_sorted st.allocation_mode
          (engine_rows (svc_run_allocation_engine st blid (r + d) r) blid)).getD j ARow.dflt
        = (engine_rows (svc_run_allocation_engine st blid (r + d) r) blid).getD
            ((engine_sort_idx st.allocation_mode (engine_rows st blid)).getD j 0) ARow.dflt := by
      unfold engine_sorted
      rw [hidx]
      exact getD_map_eq' _ _ j 0 _ hjidx
    have hs1g : (engine_sorted st.allocation_mode (engine_rows st blid)).getD j ARow.dflt
        = (engine_rows st blid).getD
            ((engine_sort_idx st.allocation_mode (engine_rows st blid)).getD j 0) ARow.dflt := by
      unfold engine_sorted
      exact getD_map_eq' _ _ j 0 _ hjidx
    have hr2i : (engine_rows (svc_run_allocation_engine st blid (r + d) r) blid).getD
          ((engine_sort_idx st.allocation_mode (engine_rows st blid)).getD j 0) ARow.dflt
        = toARow (svc_run_allocation_engine st blid (r + d) r)
            (wbF (posLoop d (engine_sorted st.allocation_mode (engine_rows st blid)))
              ((st.allocations.filter (fun a => a.batch_line_id == blid)).getD
                ((engine_sort_idx st.allocation_mode (engine_rows st blid)).getD j 0) dfltA)) := by
      rw [hrows2]
      exact getD_map_eq _ _ _ dfltA hi_f
    have hr1i : (engine_rows st blid).getD
          ((engine_sort_idx st.allocation_mode (engine_rows st blid)).getD j 0) ARow.dflt
        = toARow st ((st.allocations.filter (fun a => a.batch_line_id == blid)).getD
            ((engine_sort_idx st.allocation_mode (engine_rows st blid)).getD j 0) dfltA) := by
      rw [hrows1eq]
      exact getD_map_eq _ _ _ dfltA hi_f
    have hshape := forall₂_getD
      (posLoop_shape (engine_sorted st.allocation_mode (engine_rows st blid)) d) j hjs1
    have haid : ((st.allocations.filter (fun a => a.batch_line_id == blid)).getD
          ((engine_sort_idx st.allocation_mode (engine_rows st blid)).getD j 0) dfltA).allocation_id
        = ((posLoop d (engine_sorted st.allocation_mode (engine_rows st blid))).getD j ARow.dflt).allocation_id := by
      rw [hshape.1, hs1g, hr1i]
      rfl
    have hmemu : (posLoop d (engine_sorted st.allocation_mode (engine_rows st blid))).getD j ARow.dflt
        ∈ posLoop d (engine_sorted st.allocation_mode (engine_rows st blid)) := by
      rw [List.getD_eq_getElem _ _ hju1]
      exact List.getElem_mem _
    have hfind : (posLoop d (engine_sorted st.allocation_mode (engine_rows st blid))).find?
          (fun r' => r'.allocation_id == ((st.allocations.filter
            (fun a => a.batch_line_id == blid)).getD ((engine_sort_idx st.allocation_mode
              (engine_rows st blid)).getD j 0) dfltA).allocation_id)
        = some ((posLoop d (engine_sorted st.allocation_mode (engine_rows st blid))).getD j ARow.dflt) := by
      rw [haid]
      exact find?_arow_eq_some _ _ hids_u1 hmemu
    refine ⟨?_, ?_, ?_⟩
    · rw [hs2g, hr2i, hga, hshape.1, hs1g, hr1i]
    · rw [hs2g, hr2i, hga]
      show (wbF (posLoop d (engine_sorted st.allocation_mode (engine_rows st blid)))
        ((st.allocations.filter (fun a => a.batch_line_id == blid)).getD
          ((engine_sort_idx st.allocation_mode (engine_rows st blid)).getD j 0) dfltA)).allocated_qty = _
      rw [wbF_found _ _ _ hfind]
    · rw [hs2g, hr2i, hga, hshape.2.1, hs1g, hr1i]
  have h_triple : (engine_sorted st.allocation_mode
        (engine_rows (svc_run_allocation_engine st blid (r + d) r) blid)).map
        (fun x => (x.allocation_id, x.allocated_qty, x.allocation_status))
      = (posLoop d (engine_sorted st.allocation_mode (engine_rows st blid))).map
        (fun x => (x.allocation_id, x.allocated_qty, x.allocation_status)) := by
    apply List.ext_getElem
    · rw [List.length_map, List.length_map, hlen_s2, hlen_u1]
    · intro n h1 h2
      rw [List.getElem_map, List.getElem_map]
      have h1' : n < (engine_sorted st.allocation_mode
          (engine_rows (svc_run_allocation_engine st blid (r + d) r) blid)).length := by
        simpa using h1
      have h2' : n < (posLoop d (engine_sorted st.allocation_mode
          (engine_rows st blid))).length := by
        simpa using h2
      have hn : n < (st.allocations.filter (fun a => a.batch_line_id == blid)).length := by
        rw [← hlen_s2]
        exact h1'
      obtain ⟨e1, e2, e3⟩ := htrip_pt n hn
      rw [← List.getD_eq_getElem _ ARow.dflt h1', ← List.getD_eq_getElem _ ARow.dflt h2']
      simp only [Prod.mk.injEq]
      exact ⟨e1, e2, e3⟩
  have h_qs : (engine_sorted st.allocation_mode
        (engine_rows (svc_run_allocation_engine st blid (r + d) r) blid)).map
        (fun x => (x.allocated_qty, x.allocation_status))
      = (posLoop d (engine_sorted st.allocation_mode (engine_rows st blid))).map
        (fun x => (x.allocated_qty, x.allocation_status)) := by
    have h := congrArg (List.map (fun p : String × Int × String => p.2)) h_triple
    simpa [List.map_map, Function.comp] using h
  have h_ids2 : (engine_sorted st.allocation_mode
        (engine_rows (svc_run_allocation_engine st blid (r + d) r) blid)).map
        (fun x => x.allocation_id)
      = (posLoop d (engine_sorted st.allocation_mode (engine_rows st blid))).map
        (fun x => x.allocation_id) := by
    have h := congrArg (List.map (fun p : String × Int × String => p.1)) h_triple
    simpa [List.map_map, Function.comp] using h
  have hm2 : ¬ ((svc_run_allocation_engine st blid (r + d) r).allocation_mode
      == "Manual Only") = true := by
    rw [hmode1]
    exact hm
  have hz2 : ¬ (r - (r + d) == 0) = true := by
    simp only [beq_iff_eq]
    omega
  have he2 : ¬ (engine_rows (svc_run_allocation_engine st blid (r + d) r) blid).isEmpty = true := by
    intro hemp
    have h0 : (engine_rows (svc_run_allocation_engine st blid (r + d) r) blid).length = 0 := by
      rw [List.isEmpty_iff.mp hemp]
      rfl
    rw [hlen2] at h0
    apply he
    rw [List.isEmpty_iff]
    apply List.length_eq_zero.mp
    rw [hlen1]
    exact h0
  have hal2 : (svc_run_allocation_engine (svc_run_allocation_engine st blid (r + d) r)
        blid r (r + d)).allocations
      = ((svc_run_allocation_engine st blid (r + d) r).allocations).map
          (wbF (negLoop d (engine_sorted st.allocation_mode
            (engine_rows (svc_run_allocation_engine st blid (r + d) r) blid)))) := by
    rw [engine_allocations_main _ blid r (r + d) hm2 hz2 he2, hmode1,
      if_neg (by omega : ¬ r - (r + d) > 0),
      show -(r - (r + d)) = d from by ring, engine_writeback_eq]
  have hqty2 : (negLoop d (engine_sorted st.allocation_mode
        (engine_rows (svc_run_allocation_engine st blid (r + d) r) blid))).map
        (fun x => x.allocated_qty)
      = (engine_sorted st.allocation_mode (engine_rows st blid)).map
        (fun x => x.allocated_qty) := by
    rw [negLoop_congr _ _ d h_qs]
    apply negLoop_posLoop_roundtrip _ d hd
    · intro row hrow
      obtain ⟨a, ha, hbl, rfl⟩ := engine_rows_mem st blid row ((hperm_s1.mem_iff).mp hrow)
      rw [toARow_qty]
      exact hq a ha hbl
    · intro row hrow
      exact engine_rows_outstanding_nonneg st blid row ((hperm_s1.mem_iff).mp hrow)
    · intro row hrow
      obtain ⟨a, ha, hbl, rfl⟩ := engine_rows_mem st blid row ((hperm_s1.mem_iff).mp hrow)
      rw [toARow_status]
      simp only [beq_iff_eq]
      exact hmo a ha hbl
    · exact hfl
    · exact hcap
  have hid2 : (negLoop d (engine_sorted st.allocation_mode
        (engine_rows (svc_run_allocation_engine st blid (r + d) r) blid))).map
        (fun x => x.allocation_id)
      = (engine_sorted st.allocation_mode (engine_rows st blid)).map
        (fun x => x.allocation_id) := by
    rw [forall₂_map_eq (negLoop_shape _ d) _ (fun a b hab => hab.1), h_ids2, hid_u1]
  have hpair2 : (negLoop d (engine_sorted st.allocation_mode
        (engine_rows (svc_run_allocation_engine st blid (r + d) r) blid))).map
        (fun x => (x.allocation_id, x.allocated_qty))
      = (engine_sorted st.allocation_mode (engine_rows st blid)).map
        (fun x => (x.allocation_id, x.allocated_qty)) := by
    rw [← List.zip_map' (fun x : ARow => x.allocation_id) (fun x : ARow => x.allocated_qty),
        ← List.zip_map' (fun x : ARow => x.allocation_id) (fun x : ARow => x.allocated_qty),
        hid2, hqty2]
  rw [hal2, hal1, List.map_map]
  have hpoint : ∀ a ∈ st.allocations,
      (wbF (negLoop d (engine_sorted st.allocation_mode
          (engine_rows (svc_run_allocation_engine st blid (r + d) r) blid)))
        ∘ wbF (posLoop d (engine_sorted st.allocation_mode (engine_rows st blid)))) a
      = id a := by
    intro a ha
    show wbF (negLoop d (engine_sorted st.allocation_mode
        (engine_rows (svc_run_allocation_engine st blid (r + d) r) blid)))
      (wbF (posLoop d (engine_sorted st.allocation_mode (engine_rows st blid))) a) = a
    by_cases hbl : (a.batch_line_id == blid) = true
    · have haf : a ∈ st.allocations.filter (fun x => x.batch_line_id == blid) :=
        List.mem_filter.mpr ⟨ha, hbl⟩
      have hrowmem : toARow st a ∈ engine_rows st blid := by
        rw [hrows1eq]
        exact List.mem_map.mpr ⟨a, haf, rfl⟩
      have hsmem : toARow st a ∈ engine_sorted st.allocation_mode (engine_rows st blid) :=
        (hperm_s1.mem_iff).mpr hrowmem
      have hidmem : a.allocation_id ∈ (negLoop d (engine_sorted st.allocation_mode
          (engine_rows (svc_run_allocation_engine st blid (r + d) r) blid))).map
            (fun x => x.allocation_id) := by
        rw [hid2]
        exact List.mem_map.mpr ⟨toARow st a, hsmem, rfl⟩
      obtain ⟨row0, hrow0, hrow0id⟩ := List.mem_map.mp hidmem
      have hfid : (wbF (posLoop d (engine_sorted st.allocation_mode
          (engine_rows st blid))) a).allocation_id = a.allocation_id := (wbF_fields _ a).1
      have hfinds : ((negLoop d (engine_sorted st.allocation_mode
          (engine_rows (svc_run_allocation_engine st blid (r + d) r) blid))).find?
            (fun r' => r'.allocation_id == (wbF (posLoop d (engine_sorted st.allocation_mode
              (engine_rows st blid))) a).allocation_id)).isSome = true := by
        rw [hfid]
        exact List.find?_isSome.mpr ⟨row0, hrow0, by simp [hrow0id]⟩
      obtain ⟨row, hrowfind⟩ := Option.isSome_iff_exists.mp hfinds
      have hrowmem2 : row ∈ negLoop d (engine_sorted st.allocation_mode
          (engine_rows (svc_run_allocation_engine st blid (r + d) r) blid)) :=
        List.mem_of_find?_eq_some hrowfind
      have hrowid : row.allocation_id = a.allocation_id := by
        have hp := List.find?_some hrowfind
        rw [hfid] at hp
        simpa using hp
      have hpairmem : (row.allocation_id, row.allocated_qty)
          ∈ (negLoop d (engine_sorted st.allocation_mode
            (engine_rows (svc_run_allocation_engine st blid (r + d) r) blid))).map
              (fun x => (x.allocation_id, x.allocated_qty)) :=
        List.mem_map.mpr ⟨row, hrowmem2, rfl⟩
      rw [hpair2] at hpairmem
      obtain ⟨srow, hsrowmem, hsroweq⟩ := List.mem_map.mp hpairmem
      have hsid : srow.allocation_id = row.allocation_id := by
        have := congrArg Prod.fst hsroweq
        simpa using this
      have hsqty : srow.allocated_qty = row.allocated_qty := by
        have := congrArg Prod.snd hsroweq
        simpa using this
      obtain ⟨b, hb, hbbl, rfl⟩ := engine_rows_mem st blid srow ((hperm_s1.mem_iff).mp hsrowmem)
      have hba : b = a := by
        apply List.inj_on_of_nodup_map hids hb ha
        show b.allocation_id = a.allocation_id
        have hbid : b.allocation_id = row.allocation_id := by
          rw [← toARow_id st b]
          exact hsid
        rw [hbid, hrowid]
      have hrowqty : row.allocated_qty = a.allocated_qty := by
        rw [← hsqty, toARow_qty, hba]
      have houter : wbF (negLoop d (engine_sorted st.allocation_mode
            (engine_rows (svc_run_allocation_engine st blid (r + d) r) blid)))
          (wbF (posLoop d (engine_sorted st.allocation_mode (engine_rows st blid))) a)
          = { wbF (posLoop d (engine_sorted st.allocation_mode (engine_rows st blid))) a
                with allocated_qty := row.allocated_qty } :=
        wbF_found _ _ _ hrowfind
      rw [houter, hrowqty,
        wbF_eq_update (posLoop d (engine_sorted st.allocation_mode (engine_rows st blid))) a]
    · have hnotline : ∀ s ∈ engine_sorted st.allocation_mode (engine_rows st blid),
          ¬ s.allocation_id = a.allocation_id := by
        intro s hs hsid
        obtain ⟨b, hb, hbbl, rfl⟩ := engine_rows_mem st blid s ((hperm_s1.mem_iff).mp hs)
        have hbid : b.allocation_id = a.allocation_id := by
          rw [← toARow_id st b]
          exact hsid
        have hba : b = a := List.inj_on_of_nodup_map hids hb ha hbid
        apply hbl
        rw [← hba]
        simp [hbbl]
      have hnone1 : (posLoop d (engine_sorted st.allocation_mode (engine_rows st blid))).find?
          (fun r' => r'.allocation_id == a.allocation_id) = none := by
        apply List.find?_eq_none.mpr
        intro x hx hxid
        have hxm : x.allocation_id ∈ (posLoop d (engine_sorted st.allocation_mode
            (engine_rows st blid))).map (fun y => y.allocation_id) :=
          List.mem_map.mpr ⟨x, hx, rfl⟩
        rw [hid_u1] at hxm
        obtain ⟨s, hsmem, hsid⟩ := List.mem_map.mp hxm
        exact hnotline s hsmem (hsid.trans (by simpa using hxid))
      have hnone2 : (negLoop d (engine_sorted st.allocation_mode
          (engine_rows (svc_run_allocation_engine st blid (r + d) r) blid))).find?
          (fun r' => r'.allocation_id == a.allocation_id) = none := by
        apply List.find?_eq_none.mpr
        intro x hx hxid
        have hxm : x.allocation_id ∈ (negLoop d (engine_sorted st.allocation_mode
            (engine_rows (svc_run_allocation_engine st blid (r + d) r) blid))).map
              (fun y => y.allocation_id) :=
          List.mem_map.mpr ⟨x, hx, rfl⟩
        rw [hid2] at hxm
        obtain ⟨s, hsmem, hsid⟩ := List.mem_map.mp hxm
        exact hnotline s hsmem (hsid.trans (by simpa using hxid))
      rw [wbF_none _ _ hnone1, wbF_none _ _ hnone2]
  exact (List.map_congr_left hpoint).trans (List.map_id _)

/-- Concrete state falsifying the unqualified round-trip claim: one
allocation already holding its full requirement (10 of 10, outstanding
0), no `ManualOverride` anywhere. -/
def c7x_st : State :=
  { work_orders := [⟨"WO-0001", "B1", "Critical", 1, "Waiting Parts"⟩],
    wo_part_lines := [⟨"LN-0001", "WO-0001", "P1", "PART", 10, 10⟩],
    batches := [], batch_lines := [],
    allocations := [⟨"ALLOC-0001", "BL-0001", "WO-0001", "LN-0001", 10, "Allocated"⟩],
    audit_log := [], allocation_mode := "Priority First then FIFO" }

/-- C7 counterexample: with no `ManualOverride` on the line and a positive
delta `d = 5`, running the engine from received 10 to 15 and then back from
15 to 10 does **not** restore the allocation's quantity: the `+5` run finds
no outstanding demand and adds nothing, while the `−5` run has no such
guard and strips 5 from the allocation (10 becomes 5). -/
theorem C7_counterexample_roundtrip_not_restored :
    (∀ a ∈ c7x_st.allocations, a.allocation_status ≠ "ManualOverride")
    ∧ (0 : Int) < 5
    ∧ ((svc_run_allocation_engine (svc_run_allocation_engine c7x_st "BL-0001" (10 + 5) 10)
        "BL-0001" 10 (10 + 5)).allocations.map (fun a => a.allocated_qty)
      ≠ c7x_st.allocations.map (fun a => a.allocated_qty)) := by
  decide

/-- Concrete state satisfying the amended hypotheses: two empty
allocations with outstanding 10 each, delta 5 fits, frame front-loaded. -/
def c7w_st : State :=
  { work_orders := [⟨"WO-0001", "B1", "Critical", 1, "Waiting Parts"⟩,
      ⟨"WO-0002", "B1", "Normal", 5, "Waiting Parts"⟩],
    wo_part_lines := [⟨"LN-0001", "WO-0001", "P1", "PART", 10, 0⟩,
      ⟨"LN-0002", "WO-0002", "P1", "PART", 10, 0⟩],
    batches := [], batch_lines := [],
    allocations := [⟨"ALLOC-0001", "BL-0001", "WO-0001", "LN-0001", 0, "Allocated"⟩,
      ⟨"ALLOC-0002", "BL-0001", "WO-0002", "LN-0002", 0, "Allocated"⟩],
    audit_log := [], allocation_mode := "Priority First then FIFO" }

/-- Witness: the amended round trip at the concrete state, all hypotheses
discharged by evaluation. -/
theorem C7_amended_engine_roundtrip_witness :
    (svc_run_allocation_engine (svc_run_allocation_engine c7w_st "BL-0001" (0 + 5) 0)
        "BL-0001" 0 (0 + 5)).allocations = c7w_st.allocations :=
  C7_amended_engine_roundtrip c7w_st "BL-0001" 0 5 (by decide) (by decide) (by decide)
    (by decide) (by decide) (by decide)
